import Mathlib

/-!
# Verification of the pybart asset packaging / validation pipeline and
# virtualization-realm allocation loop

Shallow embedding of `pybart/bart.py` (module-level functions
`validate_asset_structure` and `make_asset_zip`, and the retry/poll loop of
`Bart.allocate_virtualization_realm`), together with proofs of the
specification's testable properties.

The filesystem is modelled as a tree of named nodes (`FsNode`); all path
handling mirrors the Python code's string-level behaviour (`os.path.join`
concatenation, raw string comparison of paths, Python `in` substring tests,
`str.startswith` prefix tests).
-/

set_option maxHeartbeats 1000000

namespace PyBart

/-! ## Python string primitives -/

/-- Python `s.startswith(pre)`. -/
def pyStartsWith (s pre : String) : Bool :=
  pre.data.isPrefixOf s.data

/-- Python `s.endswith(suf)`. -/
def pyEndsWith (s suf : String) : Bool :=
  suf.data.isSuffixOf s.data

/-- Contiguous-sublist test on character lists (helper for Python `in`). -/
def charsContains (needle : List Char) : List Char → Bool
  | [] => needle.isEmpty
  | c :: rest => needle.isPrefixOf (c :: rest) || charsContains needle rest

/-- Python `needle in hay` substring test. -/
def pyContains (hay needle : String) : Bool :=
  charsContains needle.data hay.data

/-- Python truthiness of an optional string (`None` and `''` are falsy). -/
def pyTruthy : Option String → Bool
  | none => false
  | some s => s ≠ ""

/-- `posixpath.join(a, b)` for two components, as used throughout `bart.py`:
if `b` is absolute it wins; otherwise insert a `/` separator unless `a` is
empty or already ends with one. -/
def osPathJoin (a b : String) : String :=
  if pyStartsWith b "/" then b
  else if a = "" then b
  else if pyEndsWith a "/" then a ++ b
  else a ++ "/" ++ b

/-- Split a character list on `'/'` (keeping empty groups). -/
def splitSlash : List Char → List (List Char)
  | [] => [[]]
  | c :: rest =>
    if c = '/' then [] :: splitSlash rest
    else
      match splitSlash rest with
      | [] => [[c]]
      | g :: gs => (c :: g) :: gs

/-- The non-empty `/`-separated components of a path, i.e. how the OS kernel
resolves the path string against the directory tree (consecutive, leading and
trailing slashes do not produce components). -/
def pathComponents (p : String) : List String :=
  ((splitSlash p.data).filter (fun g => g ≠ [])).map (fun g => String.mk g)

/-! ## The ignore lists (bart.py lines 28-43) -/

/-- Files to ignore when creating assets. -/
def ignore_files : List String := [".DS_Store", ".gitignore", "._"]

/-- Directories to ignore when creating assets. -/
def ignore_dirs : List String := [".git", ".svn", ".cons3rt"]

/-- All items to ignore when creating assets. -/
def ignore_items : List String := ignore_files ++ ignore_dirs

/-! ## The filesystem model

A node is a regular file (with its text content as a list of lines, or for a
created zip archive, the list of archived member names) or a directory with an
ordered list of named children. `findEntry` finds the first child with a given
name, matching what a real (duplicate-free) directory does. -/

inductive FsNode where
  | file (lines : List String)
  | dir (entries : List (String × FsNode))

/-- First entry with the given name, if any. -/
def findEntry : List (String × FsNode) → String → Option FsNode
  | [], _ => none
  | e :: rest, c => if e.1 = c then some e.2 else findEntry rest c

/-- Replace the value of the first entry with the given name. -/
def replaceEntry : List (String × FsNode) → String → FsNode → List (String × FsNode)
  | [], _, _ => []
  | e :: rest, c, x => if e.1 = c then (c, x) :: rest else e :: replaceEntry rest c x

/-- Delete every entry with the given name (a real directory has at most one). -/
def removeEntry (cs : List (String × FsNode)) (c : String) : List (String × FsNode) :=
  cs.filter (fun e => e.1 ≠ c)

/-- Resolve a component list against a node. -/
def FsNode.lookup : FsNode → List String → Option FsNode
  | n, [] => some n
  | .file _, _ :: _ => none
  | .dir cs, c :: rest =>
    match findEntry cs c with
    | some child => child.lookup rest
    | none => none

/-- Remove the object at a component path (`os.remove` / `os.unlink`). -/
def FsNode.removePath : FsNode → List String → FsNode
  | n, [] => n
  | .file l, _ :: _ => .file l
  | .dir cs, [c] => .dir (removeEntry cs c)
  | .dir cs, c :: c' :: rest =>
    match findEntry cs c with
    | some child => .dir (replaceEntry cs c (child.removePath (c' :: rest)))
    | none => .dir cs

/-- `mkdir -p`: create the directory chain for a component path, leaving
everything that already exists untouched (creation under a file fails in
reality; here it leaves the tree unchanged and the subsequent `isdir` check
fails, producing the same observable error). -/
def FsNode.mkdirp : FsNode → List String → FsNode
  | n, [] => n
  | .file l, _ :: _ => .file l
  | .dir cs, c :: rest =>
    match findEntry cs c with
    | some child => .dir (replaceEntry cs c (child.mkdirp rest))
    | none => .dir (cs ++ [(c, FsNode.mkdirp (.dir []) rest)])

/-- Create a regular file at a component path whose parent directory already
exists and which itself does not: the conditions under which
`open(path, 'w')` on a fresh path succeeds.  Returns `none` when the parent
chain is broken or the name already exists (IOError in the source). -/
def FsNode.createFileAt : FsNode → List String → List String → Option FsNode
  | .file _, _, _ => none
  | .dir _, [], _ => none
  | .dir cs, [c], content =>
    match findEntry cs c with
    | some _ => none
    | none => some (.dir (cs ++ [(c, .file content)]))
  | .dir cs, c :: c' :: rest, content =>
    match findEntry cs c with
    | some child =>
      match child.createFileAt (c' :: rest) content with
      | some child' => some (.dir (replaceEntry cs c child'))
      | none => none
    | none => none

/-- `os.path.isfile`: the path (with no trailing slash) resolves to a regular
file. -/
def isfile (fs : FsNode) (p : String) : Bool :=
  if pyEndsWith p "/" then false
  else
    match fs.lookup (pathComponents p) with
    | some (.file _) => true
    | _ => false

/-- `os.path.isdir`. -/
def isdir (fs : FsNode) (p : String) : Bool :=
  match fs.lookup (pathComponents p) with
  | some (.dir _) => true
  | _ => false

/-- `os.listdir`: the child names of a directory, in directory order. -/
def listdir (fs : FsNode) (p : String) : List String :=
  match fs.lookup (pathComponents p) with
  | some (.dir cs) => cs.map Prod.fst
  | _ => []

/-- The lines of a text file (`open(p).readlines()`, newlines stripped). -/
def readLines (fs : FsNode) (p : String) : List String :=
  match fs.lookup (pathComponents p) with
  | some (.file ls) => ls
  | _ => []

/-- `os.remove` on a string path. -/
def removeP (fs : FsNode) (p : String) : FsNode :=
  fs.removePath (pathComponents p)

/-- `mkdir_p` on a string path. -/
def mkdirpP (fs : FsNode) (p : String) : FsNode :=
  fs.mkdirp (pathComponents p)

/-! ## More Python string primitives (structural versions, so that concrete
computations reduce in the kernel) -/

/-- Split a character list on a separator character (keeping empty groups),
Python `s.split(sep)`. -/
def splitCharOn (sep : Char) : List Char → List (List Char)
  | [] => [[]]
  | c :: rest =>
    if c = sep then [] :: splitCharOn sep rest
    else
      match splitCharOn sep rest with
      | [] => [[c]]
      | g :: gs => (c :: g) :: gs

/-- Python `s.split(sep)` for a one-character separator. -/
def pySplit (s : String) (sep : Char) : List String :=
  (splitCharOn sep s.data).map (fun g => String.mk g)

/-- Python `s.strip()`. -/
def pyStrip (s : String) : String :=
  String.mk (((s.data.dropWhile Char.isWhitespace).reverse.dropWhile Char.isWhitespace).reverse)

/-- Python `s.lower()`. -/
def pyLower (s : String) : String :=
  String.mk (s.data.map Char.toLower)

/-- Python `s.replace(' ', '')` (removing every space character). -/
def pyRemoveSpaces (s : String) : String :=
  String.mk (s.data.filter (fun c => c ≠ ' '))

/-- Python `len(s)` (code points). -/
def pyLen (s : String) : Nat :=
  s.data.length

/-- Python `s[n:]` (drop the first `n` code points). -/
def pyDrop (s : String) (n : Nat) : String :=
  String.mk (s.data.drop n)

/-- `line.strip().split('=')[1]`: the value part of a `key=value` manifest
line (the index is always in range because the callers have checked that the
stripped line starts with `"key="`). -/
def eqVal (t : String) : String :=
  (pySplit t '=').getD 1 ""

/-! ## Error channel

`Cons3rtAssetStructureError`, `AssetZipCreationError`, and an uncaught
`OSError` (raised by `os.remove` on a non-file) are the three kinds of
exception the modelled code can raise. -/

inductive PyErr where
  | structural (msg : String)
  | zipCreation (msg : String)
  | osError (msg : String)
  deriving DecidableEq, Repr

/-! ## Manifest parsing (validate_asset_structure, bart.py lines 1794-1817) -/

structure AssetProps where
  install_script_rel_path : Option String := none
  doc_file_rel_path : Option String := none
  license_file_rel_path : Option String := none
  asset_type : Option String := none
  asset_name : Option String := none
  deriving DecidableEq, Repr

/-- One iteration of the `for line in f` parsing loop (each branch re-strips
the line, as the source calls `line.strip()` afresh in every test). -/
def parseLine (st : AssetProps) (line : String) : AssetProps :=
  if pyStartsWith (pyStrip line) "installScript=" then
    { st with install_script_rel_path := some (osPathJoin "scripts" (eqVal (pyStrip line))) }
  else if pyStartsWith (pyStrip line) "documentationFile=" then
    { st with doc_file_rel_path := some (eqVal (pyStrip line)) }
  else if pyStartsWith (pyStrip line) "licenseFile=" then
    { st with license_file_rel_path := some (eqVal (pyStrip line)) }
  else if pyStartsWith (pyStrip line) "assetType=" then
    { st with asset_type := some (pyLower (eqVal (pyStrip line))) }
  else if pyStartsWith (pyStrip line) "name=" then
    { st with asset_name := some (eqVal (pyStrip line)) }
  else st

/-- Parse the whole manifest, line by line (later lines overwrite earlier
ones because the fold updates the same record field). -/
def parseAssetProps (lines : List String) : AssetProps :=
  lines.foldl parseLine {}

/-! ## validate_asset_structure (bart.py lines 1732-1906) -/

/-- Acceptable items at the asset root (defined in the source, but never read
by the classification loop). -/
def acceptable_items : List String :=
  ["asset.properties", "scripts", "media", "config", "README", "HELP",
   "LICENSE", "HELP.md", "README.md", "LICENSE.md"]

/-- Acceptable dirs at the root. -/
def acceptable_dirs : List String := ["scripts", "media", "config"]

/-- Items to warn about (defined in the source, but never read). -/
def warn_items : List String := ["HELP.html", "README.html", "LICENSE.html"]

def potential_doc_files : List String :=
  ["HELP.html", "README.html", "HELP", "README", "HELP.md", "README.md",
   "ALTERNATE_README"]

def potential_license_files : List String :=
  ["LICENSE.html", "LICENSE", "LICENSE.md", "ALTERNATE_LICENSE"]

/-- `name`/`assetType` requiredness checks (lines 1819-1833). -/
def requireProp (v : Option String) (msgMissing msgBlank : String) :
    Except PyErr String :=
  match v with
  | none => .error (.structural msgMissing)
  | some s => if s = "" then .error (.structural msgBlank) else .ok s

/-- Documentation-file existence check (lines 1838-1847); returns the
resolved `doc_file_path` (`''` when the property is unset or blank). -/
def checkDocFile (fs : FsNode) (asset_dir_path : String) (rel : Option String) :
    Except PyErr String :=
  if pyTruthy rel then
    let p := osPathJoin asset_dir_path (rel.getD "")
    if isfile fs p then .ok p
    else .error (.structural ("Documentation file not found: " ++ p))
  else .ok ""

/-- License-file existence check (lines 1849-1858). -/
def checkLicenseFile (fs : FsNode) (asset_dir_path : String) (rel : Option String) :
    Except PyErr String :=
  if pyTruthy rel then
    let p := osPathJoin asset_dir_path (rel.getD "")
    if isfile fs p then .ok p
    else .error (.structural ("License file not found: " ++ p))
  else .ok ""

/-- Software-asset install-script check (lines 1860-1869). -/
def checkInstallScript (fs : FsNode) (asset_dir_path asset_type : String)
    (rel : Option String) : Except PyErr Unit :=
  if asset_type = "software" then
    if pyTruthy rel = false then
      .error (.structural "Software asset has an asset.properties missing the installScript prop")
    else
      let p := osPathJoin asset_dir_path (rel.getD "")
      if isfile fs p then .ok ()
      else .error (.structural ("Install script file not found: " ++ p))
  else .ok ()

/-- The root-item classification loop (lines 1872-1904).  `os.listdir` is
taken once before the loop, so the item list is a parameter; the filesystem
is threaded because the `VERSION` branch performs `os.remove` (which on a
non-file raises an uncaught OSError). -/
def checkRootItems (asset_dir_path asset_props license_file_path doc_file_path : String)
    (doc_rel lic_rel : Option String) :
    FsNode → List String → Except PyErr FsNode
  | fs, [] => .ok fs
  | fs, item :: rest =>
    if osPathJoin asset_dir_path item = license_file_path then
      checkRootItems asset_dir_path asset_props license_file_path doc_file_path doc_rel lic_rel fs rest
    else if osPathJoin asset_dir_path item = doc_file_path then
      checkRootItems asset_dir_path asset_props license_file_path doc_file_path doc_rel lic_rel fs rest
    else if osPathJoin asset_dir_path item = asset_props then
      checkRootItems asset_dir_path asset_props license_file_path doc_file_path doc_rel lic_rel fs rest
    else if item ∈ ignore_items then
      checkRootItems asset_dir_path asset_props license_file_path doc_file_path doc_rel lic_rel fs rest
    else if item ∈ acceptable_dirs ∧ isdir fs (osPathJoin asset_dir_path item) then
      checkRootItems asset_dir_path asset_props license_file_path doc_file_path doc_rel lic_rel fs rest
    else if item = "VERSION" then
      if isfile fs (osPathJoin asset_dir_path item) then
        checkRootItems asset_dir_path asset_props license_file_path doc_file_path doc_rel lic_rel
          (removeP fs (osPathJoin asset_dir_path item)) rest
      else .error (.osError ("cannot remove: " ++ osPathJoin asset_dir_path item))
    else if item = "doc" then
      .error (.structural "Found a doc directory at the asset root, this is not allowed")
    else if item ∈ potential_doc_files then
      if pyTruthy doc_rel = false then
        .error (.structural ("Documentation file found but not specified in asset.properties: "
          ++ osPathJoin asset_dir_path item))
      else
        .error (.structural ("Extra documentation file found: " ++ osPathJoin asset_dir_path item))
    else if item ∈ potential_license_files then
      if pyTruthy lic_rel = false then
        .error (.structural ("License file found but not specified in asset.properties: "
          ++ osPathJoin asset_dir_path item))
      else
        .error (.structural ("Extra license file found: " ++ osPathJoin asset_dir_path item))
    else
      .error (.structural ("Found illegal item at the asset root dir: " ++ item))

/-- `validate_asset_structure(asset_dir_path)`: returns the (possibly
mutated, because of `VERSION` deletion) filesystem and the asset name, or the
raised error; each stage propagates the first error (fail-fast). -/
def validate_asset_structure (fs : FsNode) (asset_dir_path : String) :
    Except PyErr (FsNode × String) :=
  if isfile fs (osPathJoin asset_dir_path "asset.properties") = false then
    .error (.structural ("Asset properties file not found: "
      ++ osPathJoin asset_dir_path "asset.properties"))
  else
    match requireProp (parseAssetProps (readLines fs
        (osPathJoin asset_dir_path "asset.properties"))).asset_name
      "Required property [name] not found in asset properties file"
      "Required property [name] found blank in asset properties file" with
    | .error e => .error e
    | .ok asset_name =>
      match requireProp (parseAssetProps (readLines fs
          (osPathJoin asset_dir_path "asset.properties"))).asset_type
        "Required property [asset_type] not found in asset properties file"
        "Required property [asset_type] found blank in asset properties file" with
      | .error e => .error e
      | .ok asset_type =>
        match checkDocFile fs asset_dir_path (parseAssetProps (readLines fs
            (osPathJoin asset_dir_path "asset.properties"))).doc_file_rel_path with
        | .error e => .error e
        | .ok doc_file_path =>
          match checkLicenseFile fs asset_dir_path (parseAssetProps (readLines fs
              (osPathJoin asset_dir_path "asset.properties"))).license_file_rel_path with
          | .error e => .error e
          | .ok license_file_path =>
            match checkInstallScript fs asset_dir_path asset_type
                (parseAssetProps (readLines fs
                  (osPathJoin asset_dir_path "asset.properties"))).install_script_rel_path with
            | .error e => .error e
            | .ok _ =>
              match checkRootItems asset_dir_path
                  (osPathJoin asset_dir_path "asset.properties")
                  license_file_path doc_file_path
                  (parseAssetProps (readLines fs
                    (osPathJoin asset_dir_path "asset.properties"))).doc_file_rel_path
                  (parseAssetProps (readLines fs
                    (osPathJoin asset_dir_path "asset.properties"))).license_file_rel_path
                  fs (listdir fs asset_dir_path) with
              | .error e => .error e
              | .ok fs2 => .ok (fs2, asset_name)

/-- The manifest path `os.path.join(asset_dir_path, 'asset.properties')`. -/
def manifestPath (asset_dir_path : String) : String :=
  osPathJoin asset_dir_path "asset.properties"

/-- The parsed manifest of an asset directory. -/
def manifestProps (fs : FsNode) (asset_dir_path : String) : AssetProps :=
  parseAssetProps (readLines fs (manifestPath asset_dir_path))

/-- The `doc_file_path` value used by the root-item loop: the declared
documentation file resolved against the asset root, or `''` when the property
is unset or blank. -/
def resolvedDocPath (fs : FsNode) (asset_dir_path : String) : String :=
  if pyTruthy (manifestProps fs asset_dir_path).doc_file_rel_path then
    osPathJoin asset_dir_path ((manifestProps fs asset_dir_path).doc_file_rel_path.getD "")
  else ""

/-- The `license_file_path` value used by the root-item loop. -/
def resolvedLicensePath (fs : FsNode) (asset_dir_path : String) : String :=
  if pyTruthy (manifestProps fs asset_dir_path).license_file_rel_path then
    osPathJoin asset_dir_path ((manifestProps fs asset_dir_path).license_file_rel_path.getD "")
  else ""

/-! ## make_asset_zip (bart.py lines 1909-1994) -/

/-- Names of the directory-children of a directory, in directory order (the
`dirs` component of an `os.walk` triple). -/
def dirNames (cs : List (String × FsNode)) : List String :=
  (cs.filter fun e => match e.2 with | .dir _ => true | .file _ => false).map Prod.fst

/-- Names of the file-children of a directory, in directory order (the
`files` component of an `os.walk` triple). -/
def fileNames (cs : List (String × FsNode)) : List String :=
  (cs.filter fun e => match e.2 with | .file _ => true | .dir _ => false).map Prod.fst

mutual

/-- `os.walk(dirPath)` (top-down): the list of `(root, dirs, files)` triples,
for the given node sitting at `dirPath`. -/
def osWalk (fs : FsNode) (dirPath : String) :
    List (String × List String × List String) :=
  match fs with
  | .file _ => []
  | .dir cs => (dirPath, dirNames cs, fileNames cs) :: walkSubdirs cs dirPath

/-- Walk each directory child, in directory order. -/
def walkSubdirs : List (String × FsNode) → String →
    List (String × List String × List String)
  | [], _ => []
  | (n, c) :: rest, dirPath =>
    (match c with
     | .dir _ => osWalk c (osPathJoin dirPath n)
     | .file _ => []) ++ walkSubdirs rest dirPath

end

/-- The `for ignore_dir in ignore_dirs` loop (lines 1966-1970): sets `skip`
when an ignore-directory name occurs as a substring of the file path. -/
def zipSkipDirs (file_path : String) : List String → Bool
  | [] => false
  | d :: rest => if pyContains file_path d then true else zipSkipDirs file_path rest

/-- The `for ignore_file in ignore_files` loop (lines 1972-1976): sets `skip`
when the filename starts with an ignore-file prefix. -/
def zipSkipFiles (f : String) : List String → Bool
  | [] => false
  | pre :: rest => if pyStartsWith f pre then true else zipSkipFiles f rest

/-- The archive name under which a non-skipped file is stored (lines
1983-1986): the walk root minus the `asset_dir_path` prefix, joined with the
filename, minus a leading `/`. -/
def archiveName (asset_dir_path root f : String) : String :=
  let a := osPathJoin (pyDrop root (pyLen asset_dir_path)) f
  if pyStartsWith a "/" then pyDrop a 1 else a

/-- The zip-assembly loop (lines 1961-1988) applied to a walk: the archive
names of every written member, in order. -/
def zipEntriesOfWalk (asset_dir_path : String)
    (walk : List (String × List String × List String)) : List String :=
  walk.flatMap fun t =>
    t.2.2.filterMap fun f =>
      if zipSkipDirs (osPathJoin t.1 f) ignore_dirs || zipSkipFiles f ignore_files then none
      else some (archiveName asset_dir_path t.1 f)

/-- The member list of the zip created from `asset_dir_path`. -/
def zipEntries (fs : FsNode) (asset_dir_path : String) : List String :=
  match fs.lookup (pathComponents asset_dir_path) with
  | some n => zipEntriesOfWalk asset_dir_path (osWalk n asset_dir_path)
  | none => []

/-- Removal of a pre-existing zip at the computed path (lines 1952-1955). -/
def zipRemoveExisting (fs : FsNode) (zip_file_path : String) : FsNode :=
  if isfile fs zip_file_path then removeP fs zip_file_path else fs

/-- The zip deletion/creation step of `make_asset_zip` (lines 1952-1994):
delete any existing zip, then create the archive (its content modelled as
its member-name list). -/
def make_zip_write (fs : FsNode) (asset_dir_path zip_file_path : String) :
    Except PyErr (FsNode × String × List String) :=
  match (zipRemoveExisting fs zip_file_path).createFileAt (pathComponents zip_file_path)
      (zipEntries (zipRemoveExisting fs zip_file_path) asset_dir_path) with
  | none => .error (.zipCreation ("Unable to create zip file: " ++ zip_file_path))
  | some fs3 =>
    .ok (fs3, zip_file_path, zipEntries (zipRemoveExisting fs zip_file_path) asset_dir_path)

/-- `make_asset_zip` once the destination directory string is fixed (lines
1931-1994): check the destination, validate (wrapping structural errors as
`AssetZipCreationError`), compute the zip name from the asset name, write. -/
def make_asset_zip_core (fs : FsNode) (asset_dir_path dest : String) :
    Except PyErr (FsNode × String × List String) :=
  if isdir fs dest = false then
    .error (.zipCreation ("Provided destination_directory is not a directory: " ++ dest))
  else
    match validate_asset_structure fs asset_dir_path with
    | .error (.structural msg) =>
      .error (.zipCreation ("Cons3rtAssetStructureError: Problem found in the asset structure: "
        ++ msg))
    | .error e => .error e
    | .ok (fs2, asset_name) =>
      make_zip_write fs2 asset_dir_path
        (osPathJoin dest ("asset-" ++ pyRemoveSpaces asset_name ++ ".zip"))

/-- `make_asset_zip(asset_dir_path, destination_directory)`.  `home` stands
for `os.path.expanduser('~')`, used when no destination is given (in which
case `~/Downloads` is created with `mkdir_p`).  On success the result
carries the filesystem (with the zip created at the returned path), the zip
path, and the member list. -/
def make_asset_zip (fs : FsNode) (asset_dir_path : String)
    (destination_directory : Option String) (home : String) :
    Except PyErr (FsNode × String × List String) :=
  if isdir fs asset_dir_path = false then
    .error (.zipCreation ("Provided asset_dir_path is not a directory: " ++ asset_dir_path))
  else
    match destination_directory with
    | some d => make_asset_zip_core fs asset_dir_path d
    | none =>
      make_asset_zip_core (mkdirpP fs (osPathJoin home "Downloads")) asset_dir_path
        (osPathJoin home "Downloads")

/-! ## Bart.allocate_virtualization_realm retry/poll loop (bart.py lines
836-881)

The remote client is modelled by two oracles indexed by call count:
`allocReq i` is the string returned by the `i`-th
`cons3rt_client.allocate_virtualization_realm` call, and `getVrId j` the
result of the `j`-th `cons3rt_client.get_virtualization_realm_id` call
(`none` for Python `None`).  `time.sleep` has no observable effect and is
omitted. -/

inductive AllocOutcome where
  /-- the `break` path: a poll returned a realm id. -/
  | success (vrId : Nat)
  /-- the `else` branch at lines 873-876: the allocation response did not
  affirm success; carries the offending response. -/
  | fatal (response : String)
  /-- the exhaustion error at lines 878-881; carries the realm name and the
  retry budget appearing in the message. -/
  | exhausted (vrName : String) (retries : Nat)
  deriving DecidableEq, Repr

structure AllocResult where
  /-- number of allocation requests issued. -/
  requests : Nat
  /-- total number of poll queries issued. -/
  polls : Nat
  outcome : AllocOutcome
  deriving DecidableEq, Repr

/-- The `for count in range(0, max_count)` poll loop (lines 857-864):
returns the number of polls issued and the discovered id, starting from
global poll index `start` with `fuel` iterations remaining. -/
def pollLoop (getVrId : Nat → Option Nat) (start : Nat) : Nat → Nat × Option Nat
  | 0 => (0, none)
  | fuel + 1 =>
    match getVrId start with
    | some vrId => (1, some vrId)
    | none =>
      let rest := pollLoop getVrId (start + 1) fuel
      (rest.1 + 1, rest.2)

/-- The `while retry_count < self.retries` loop (lines 837-876), recursing on
`retries - retry_count`; `reqs` and `polls` count the calls issued so far. -/
def allocLoop (allocReq : Nat → String) (getVrId : Nat → Option Nat)
    (queries retries : Nat) (vrName : String) :
    Nat → Nat → Nat → AllocResult
  | reqs, polls, 0 => ⟨reqs, polls, .exhausted vrName retries⟩
  | reqs, polls, remaining + 1 =>
    let allocated := allocReq reqs
    if pyLower allocated = "true" then
      let pr := pollLoop getVrId polls queries
      match pr.2 with
      | none =>
        allocLoop allocReq getVrId queries retries vrName (reqs + 1) (polls + pr.1) remaining
      | some vrId => ⟨reqs + 1, polls + pr.1, .success vrId⟩
    else ⟨reqs + 1, polls, .fatal allocated⟩

/-- The retry/poll state machine of `Bart.allocate_virtualization_realm`,
with `retries = self.retries` and `queries = int(self.queries)`. -/
def allocate_virtualization_realm (allocReq : Nat → String)
    (getVrId : Nat → Option Nat) (retries queries : Nat) (vrName : String) :
    AllocResult :=
  allocLoop allocReq getVrId queries retries vrName 0 0 retries

/-! ## Concrete filesystems and literal claim statements referenced by the
theorems below -/

/-- The asset directory used to refute C2 as stated: its root holds the
manifest and a file `b.gitx`, whose name contains `.git` as a substring but
which has no ancestor directory in the ignore list and no ignored filename
prefix. -/
def fsC2 : FsNode :=
  .dir [("a", .dir [
      ("asset.properties", .file ["name=C2 Asset", "assetType=scenario"]),
      ("media", .dir [
        ("b.gitx", .file ["data"]),
        ("logo.png", .file ["png"])])]),
    ("dest", .dir [])]

/-- The scenario's asset directory: a manifest with `name=My Asset` and
`assetType=scenario`, a `.git` directory with arbitrary files inside, and
`media/logo.png`; plus an empty destination directory. -/
def fsC9 (gitEntries : List (String × List String)) : FsNode :=
  .dir [("myasset", .dir [
      ("asset.properties", .file ["name=My Asset", "assetType=scenario"]),
      (".git", .dir (gitEntries.map (fun e => (e.1, FsNode.file e.2)))),
      ("media", .dir [("logo.png", .file ["png"])])]),
    ("dest", .dir [])]

/-- The literal statement of claim C7: every successfully validated asset
directory with a root `VERSION` file has that file deleted by validation. -/
def versionAlwaysDeletedClaim : Prop :=
  ∀ (fs fs' : FsNode) (adp name : String),
    validate_asset_structure fs adp = .ok (fs', name) →
    isfile fs (osPathJoin adp "VERSION") = true →
    isfile fs' (osPathJoin adp "VERSION") = false

/-- An otherwise-valid asset whose manifest declares `licenseFile=VERSION`. -/
def fsC7 : FsNode :=
  .dir [("a", .dir [
    ("asset.properties",
      .file ["name=V Asset", "assetType=scenario", "licenseFile=VERSION"]),
    ("VERSION", .file ["1.0"])])]

/-- The literal statement of claim C8: packaging twice with the same
directory and destination always succeeds both times, the second call
overwriting the first zip at the same path and producing the same member
list. -/
def makeZipIdempotentClaim : Prop :=
  ∀ (fs fs1 : FsNode) (adp p : String) (m : List String) (d home : String),
    make_asset_zip fs adp (some d) home = .ok (fs1, p, m) →
    ∃ fs2, make_asset_zip fs1 adp (some d) home = .ok (fs2, p, m)

/-- A minimal valid asset rooted at `/a`. -/
def fsC8 : FsNode :=
  .dir [("a", .dir [("asset.properties", .file ["name=X", "assetType=scenario"])])]

/-- `fsC8` after packaging it with destination `/a` (the asset root
itself): the zip lands inside the asset directory. -/
def fsC8' : FsNode :=
  .dir [("a", .dir [
    ("asset.properties", .file ["name=X", "assetType=scenario"]),
    ("asset-X.zip", .file ["asset.properties"])])]

/-- A valid asset beside an empty destination directory. -/
def fsC8w : FsNode :=
  .dir [("a", .dir [("asset.properties", .file ["name=X", "assetType=scenario"])]),
        ("out", .dir [])]

/-- `fsC8w` after packaging `/a` into `/out`. -/
def fsC8w' : FsNode :=
  .dir [("a", .dir [("asset.properties", .file ["name=X", "assetType=scenario"])]),
        ("out", .dir [("asset-X.zip", .file ["asset.properties"])])]

/-! ## Helper lemmas: string prefixes -/

/-- Two nonempty prefixes with different first characters cannot both start
the same string. -/
theorem startsWith_head_disjoint (t p q : String) {c d : Char} {cp cq : List Char}
    (hp : p.data = c :: cp) (hq : q.data = d :: cq) (hne : c ≠ d)
    (h : pyStartsWith t p = true) : pyStartsWith t q = false := by
  unfold pyStartsWith at *
  rw [hp] at h
  rw [hq]
  cases ht : t.data with
  | nil => rw [ht] at h; simp [List.isPrefixOf] at h
  | cons e es =>
    rw [ht] at h
    have h' : (c == e && cp.isPrefixOf es) = true := h
    have hce : c = e := by
      cases hb : (c == e) with
      | true => exact eq_of_beq hb
      | false => rw [hb] at h'; exact absurd h' (by simp)
    have hde : (d == e) = false := by
      rw [← hce]
      exact Bool.eq_false_iff.mpr (fun hdc => hne (eq_of_beq hdc).symm)
    show ((d :: cq).isPrefixOf (e :: es)) = false
    rw [show ((d :: cq).isPrefixOf (e :: es)) = (d == e && cq.isPrefixOf es) from rfl, hde]
    rfl

/-! ## Claims about the allocation loop -/

/-- **C3**: with a retry budget of 3 and a poll budget of 2, an allocation
request that always affirms success and a poll that never finds the realm id,
`Bart.allocate_virtualization_realm` issues exactly 3 allocation requests and
6 poll queries and then fails with the exhaustion error carrying the realm
name and the retry budget. -/
theorem alloc_exhaustion_three_requests_six_polls
    (allocReq : Nat → String) (getVrId : Nat → Option Nat) (vrName : String)
    (hreq : ∀ i, pyLower (allocReq i) = "true")
    (hpoll : ∀ j, getVrId j = none) :
    allocate_virtualization_realm allocReq getVrId 3 2 vrName =
      ⟨3, 6, .exhausted vrName 3⟩ := by
  simp [allocate_virtualization_realm, allocLoop, pollLoop, hreq, hpoll]

/-- Witness for C3 at a concrete pair of oracles. -/
theorem alloc_exhaustion_three_requests_six_polls_witness :
    allocate_virtualization_realm (fun _ => "true") (fun _ => none) 3 2 "Springfield" =
      ⟨3, 6, .exhausted "Springfield" 3⟩ :=
  alloc_exhaustion_three_requests_six_polls (fun _ => "true") (fun _ => none)
    "Springfield" (fun _ => rfl) (fun _ => rfl)

/-- **C4**: a response whose lowercase form is not `'true'` on the first
attempt makes `Bart.allocate_virtualization_realm` raise the immediate fatal
error after exactly 1 allocation request and 0 polls; moreover (second
conjunct) on *any* attempt a non-affirming response terminates the loop at
once with the fatal error, so it is never retried. -/
theorem alloc_negative_response_immediately_fatal
    (allocReq : Nat → String) (getVrId : Nat → Option Nat)
    (retries queries : Nat) (vrName : String)
    (hpos : 0 < retries)
    (hneg : pyLower (allocReq 0) ≠ "true") :
    allocate_virtualization_realm allocReq getVrId retries queries vrName =
      ⟨1, 0, .fatal (allocReq 0)⟩ ∧
    (∀ reqs polls remaining, pyLower (allocReq reqs) ≠ "true" →
      allocLoop allocReq getVrId queries retries vrName reqs polls (remaining + 1) =
        ⟨reqs + 1, polls, .fatal (allocReq reqs)⟩) := by
  have hstep : ∀ reqs polls remaining, pyLower (allocReq reqs) ≠ "true" →
      allocLoop allocReq getVrId queries retries vrName reqs polls (remaining + 1) =
        ⟨reqs + 1, polls, .fatal (allocReq reqs)⟩ := by
    intro reqs polls remaining hne
    simp [allocLoop, hne]
  refine ⟨?_, hstep⟩
  obtain ⟨r, rfl⟩ : ∃ r, retries = r + 1 :=
    ⟨retries - 1, (Nat.succ_pred_eq_of_pos hpos).symm⟩
  exact hstep 0 0 r hneg

/-- Witness for C4 at a concrete pair of oracles. -/
theorem alloc_negative_response_immediately_fatal_witness :
    allocate_virtualization_realm (fun _ => "false") (fun _ => none) 3 2 "Springfield" =
      ⟨1, 0, .fatal "false"⟩ :=
  (alloc_negative_response_immediately_fatal (fun _ => "false") (fun _ => none)
    3 2 "Springfield" (by decide) (by decide)).1

/-! ## Claim about manifest parsing (C10) -/

/-- **C10**: the manifest is parsed line by line and later lines setting the
same recognized key overwrite earlier ones: whatever came before, a final
line whose stripped form sets a recognized key determines that key's parsed
value exactly (no merging). -/
theorem manifest_last_write_wins (ls : List String) (line : String) :
    (pyStartsWith (pyStrip line) "name=" →
      (parseAssetProps (ls ++ [line])).asset_name = some (eqVal (pyStrip line))) ∧
    (pyStartsWith (pyStrip line) "assetType=" →
      (parseAssetProps (ls ++ [line])).asset_type = some (pyLower (eqVal (pyStrip line)))) ∧
    (pyStartsWith (pyStrip line) "installScript=" →
      (parseAssetProps (ls ++ [line])).install_script_rel_path =
        some (osPathJoin "scripts" (eqVal (pyStrip line)))) ∧
    (pyStartsWith (pyStrip line) "documentationFile=" →
      (parseAssetProps (ls ++ [line])).doc_file_rel_path = some (eqVal (pyStrip line))) ∧
    (pyStartsWith (pyStrip line) "licenseFile=" →
      (parseAssetProps (ls ++ [line])).license_file_rel_path = some (eqVal (pyStrip line))) := by
  have hfold : parseAssetProps (ls ++ [line]) = parseLine (parseAssetProps ls) line := by
    unfold parseAssetProps
    rw [List.foldl_append]
    rfl
  rw [hfold]
  unfold parseLine
  refine ⟨?_, ?_, ?_, ?_, ?_⟩ <;> intro h
  · rw [startsWith_head_disjoint (pyStrip line) "name=" "installScript=" rfl rfl (by decide) h,
      startsWith_head_disjoint (pyStrip line) "name=" "documentationFile=" rfl rfl (by decide) h,
      startsWith_head_disjoint (pyStrip line) "name=" "licenseFile=" rfl rfl (by decide) h,
      startsWith_head_disjoint (pyStrip line) "name=" "assetType=" rfl rfl (by decide) h, h]
    rfl
  · rw [startsWith_head_disjoint (pyStrip line) "assetType=" "installScript=" rfl rfl (by decide) h,
      startsWith_head_disjoint (pyStrip line) "assetType=" "documentationFile=" rfl rfl (by decide) h,
      startsWith_head_disjoint (pyStrip line) "assetType=" "licenseFile=" rfl rfl (by decide) h, h]
    rfl
  · rw [h]
    rfl
  · rw [startsWith_head_disjoint (pyStrip line) "documentationFile=" "installScript=" rfl rfl (by decide) h, h]
    rfl
  · rw [startsWith_head_disjoint (pyStrip line) "licenseFile=" "installScript=" rfl rfl (by decide) h,
      startsWith_head_disjoint (pyStrip line) "licenseFile=" "documentationFile=" rfl rfl (by decide) h, h]
    rfl

/-- Witness for C10: two `name=` lines and two `assetType=` lines; the later
values win. -/
theorem manifest_last_write_wins_witness :
    (parseAssetProps ["name=First", "assetType=Software", "name=Second"]).asset_name =
      some "Second" :=
  (manifest_last_write_wins ["name=First", "assetType=Software"] "name=Second").1 (by decide)

/-! ## Helper lemmas: substrings and appends -/

theorem string_data_append (a b : String) : (a ++ b).data = a.data ++ b.data := by
  cases a
  cases b
  rfl

theorem isPrefixOf_append_right (n h h' : List Char)
    (hp : n.isPrefixOf h = true) : n.isPrefixOf (h ++ h') = true := by
  induction n generalizing h with
  | nil => cases h ++ h' with
    | nil => rfl
    | cons a as => rfl
  | cons c ns ih =>
    cases h with
    | nil => simp [List.isPrefixOf] at hp
    | cons e es =>
      have hp' : (c == e && ns.isPrefixOf es) = true := hp
      have h1 : (c == e) = true := by
        cases hb : (c == e) with
        | true => rfl
        | false => rw [hb] at hp'; exact absurd hp' (by simp)
      have h2 : ns.isPrefixOf es = true := by
        rw [h1] at hp'; simpa using hp'
      show (c == e && ns.isPrefixOf (es ++ h')) = true
      rw [h1, ih es h2]
      rfl

theorem charsContains_append_right (n h h' : List Char)
    (hc : charsContains n h = true) : charsContains n (h ++ h') = true := by
  induction h with
  | nil =>
    have : n = [] := by
      have : n.isEmpty = true := hc
      exact List.isEmpty_iff.mp this
    subst this
    cases h' with
    | nil => rfl
    | cons c cs => show (List.isPrefixOf [] _ || _) = true; rfl
  | cons c cs ih =>
    have hc' : (n.isPrefixOf (c :: cs) || charsContains n cs) = true := hc
    rcases Bool.or_eq_true_iff.mp hc' with h1 | h2
    · show (n.isPrefixOf ((c :: cs) ++ h') || _) = true
      rw [isPrefixOf_append_right n (c :: cs) h' h1]
      rfl
    · show (n.isPrefixOf (c :: (cs ++ h')) || charsContains n (cs ++ h')) = true
      rw [ih h2]
      simp

/-- Substring tests extend along appends on the right. -/
theorem pyContains_append_right (s t n : String)
    (hc : pyContains s n = true) : pyContains (s ++ t) n = true := by
  unfold pyContains at *
  rw [string_data_append]
  exact charsContains_append_right n.data s.data t.data hc

/-! ## Claim C2: which files make_asset_zip skips -/

/-- The `for ignore_dir in ignore_dirs` break-loop computes exactly the
disjunction of the substring tests. -/
theorem zipSkipDirs_eq_any (fp : String) :
    ∀ l : List String, zipSkipDirs fp l = l.any (fun d => pyContains fp d) := by
  intro l
  induction l with
  | nil => rfl
  | cons d rest ih =>
    show (if pyContains fp d then true else zipSkipDirs fp rest) = _
    cases h : pyContains fp d with
    | true => simp [h]
    | false => simp [h, ih]

/-- The `for ignore_file in ignore_files` break-loop computes exactly the
disjunction of the prefix tests. -/
theorem zipSkipFiles_eq_any (f : String) :
    ∀ l : List String, zipSkipFiles f l = l.any (fun pre => pyStartsWith f pre) := by
  intro l
  induction l with
  | nil => rfl
  | cons pre rest ih =>
    show (if pyStartsWith f pre then true else zipSkipFiles f rest) = _
    cases h : pyStartsWith f pre with
    | true => simp [h]
    | false => simp [h, ih]

theorem filterMap_if_skip {α β : Type} (g : α → β) (c : α → Bool) :
    ∀ l : List α,
      (l.filterMap (fun f => if c f then none else some (g f))) =
        (l.filter (fun f => !(c f))).map g := by
  intro l
  induction l with
  | nil => rfl
  | cons a rest ih =>
    cases h : c a with
    | true => simp [List.filterMap_cons, List.filter_cons, h, ih]
    | false => simp [List.filterMap_cons, List.filter_cons, h, ih]

/-- **C2 (amended)**: during zip assembly `make_asset_zip` skips a walked
file if and only if some ignore-directory name occurs as a *substring
anywhere in the file's full path* (not merely as a whole ancestor-directory
component), or the filename starts with an ignore-file prefix; every other
walked file is written to the archive under its computed archive name. -/
theorem zip_skips_iff_substring_or_prefix (asset_dir_path fp f : String)
    (walk : List (String × List String × List String)) :
    ((zipSkipDirs fp ignore_dirs || zipSkipFiles f ignore_files) =
      (ignore_dirs.any (fun d => pyContains fp d)
        || ignore_files.any (fun pre => pyStartsWith f pre))) ∧
    zipEntriesOfWalk asset_dir_path walk =
      walk.flatMap (fun t =>
        (t.2.2.filter (fun f =>
          !(ignore_dirs.any (fun d => pyContains (osPathJoin t.1 f) d)
            || ignore_files.any (fun pre => pyStartsWith f pre)))).map
          (archiveName asset_dir_path t.1)) := by
  constructor
  · rw [zipSkipDirs_eq_any, zipSkipFiles_eq_any]
  · unfold zipEntriesOfWalk
    congr 1
    funext t
    rw [filterMap_if_skip (archiveName asset_dir_path t.1)
      (fun f => zipSkipDirs (osPathJoin t.1 f) ignore_dirs || zipSkipFiles f ignore_files)
      t.2.2]
    congr 1
    refine List.filter_congr ?_
    intro f _
    rw [zipSkipDirs_eq_any, zipSkipFiles_eq_any]

/-- **C2 (counterexample)**: the file `/a/media/b.gitx` satisfies neither
condition of the claim — no ancestor directory segment of its path is in the
ignore-directories list and its name starts with no ignore-file prefix — yet
`make_asset_zip` does *not* write it into the archive (the code skips it
because `.git` is a substring of the full path), so the claimed `iff` is
false at this input. -/
theorem zip_segment_skip_counterexample :
    ((pathComponents "/a/media").all (fun seg => !(decide (seg ∈ ignore_dirs))) = true) ∧
    (ignore_files.all (fun pre => !(pyStartsWith "b.gitx" pre)) = true) ∧
    (make_asset_zip fsC2 "/a" (some "/dest") "/home").map (fun t => t.2.2) =
      .ok ["asset.properties", "media/logo.png"] := by
  refine ⟨by decide, by decide, by rfl⟩

/-! ## Claim C9: the concrete packaging scenario -/

theorem dirNames_all_files (ge : List (String × List String)) :
    dirNames (ge.map (fun e => (e.1, FsNode.file e.2))) = [] := by
  induction ge with
  | nil => rfl
  | cons e rest ih => simpa [dirNames, List.filter_cons] using ih

theorem fileNames_all_files (ge : List (String × List String)) :
    fileNames (ge.map (fun e => (e.1, FsNode.file e.2))) = ge.map Prod.fst := by
  induction ge with
  | nil => rfl
  | cons e rest ih => simpa [fileNames, List.filter_cons] using ih

theorem walkSubdirs_all_files (ge : List (String × List String)) (d : String) :
    walkSubdirs (ge.map (fun e => (e.1, FsNode.file e.2))) d = [] := by
  induction ge with
  | nil => rfl
  | cons e rest ih => simpa [walkSubdirs] using ih

/-- Every file directly inside the `.git` directory is skipped by the zip
loop, because `.git` is a substring of its path. -/
theorem git_files_all_skipped (names : List String)
    (h : ∀ f ∈ names, pyStartsWith f "/" = false) :
    names.filterMap (fun f =>
      if zipSkipDirs (osPathJoin "/myasset/.git" f) ignore_dirs
          || zipSkipFiles f ignore_files then none
      else some (archiveName "/myasset" "/myasset/.git" f)) = [] := by
  induction names with
  | nil => rfl
  | cons f rest ih =>
    have hjoin : osPathJoin "/myasset/.git" f = "/myasset/.git/" ++ f := by
      unfold osPathJoin
      rw [h f (List.mem_cons_self f rest)]
      rfl
    have hsub : pyContains (osPathJoin "/myasset/.git" f) ".git" = true := by
      rw [hjoin]
      exact pyContains_append_right "/myasset/.git/" f ".git" (by decide)
    have hskip : zipSkipDirs (osPathJoin "/myasset/.git" f) ignore_dirs = true := by
      show (if pyContains (osPathJoin "/myasset/.git" f) ".git" then true else _) = true
      rw [hsub]
      rfl
    rw [List.filterMap_cons]
    simp only [hskip, Bool.true_or, if_true]
    exact ih (fun x hx => h x (List.mem_cons_of_mem f hx))

/-- The member list of the scenario's zip: `.git` contributes nothing, the
manifest and `media/logo.png` are both archived. -/
theorem zipEntries_scenario (ge : List (String × List String))
    (h : ∀ e ∈ ge, pyStartsWith e.1 "/" = false) :
    zipEntries (fsC9 ge) "/myasset" = ["asset.properties", "media/logo.png"] := by
  have hwalk : zipEntries (fsC9 ge) "/myasset" =
      zipEntriesOfWalk "/myasset"
        (("/myasset", [".git", "media"], ["asset.properties"]) ::
         ("/myasset/.git", dirNames (ge.map (fun e => (e.1, FsNode.file e.2))),
            fileNames (ge.map (fun e => (e.1, FsNode.file e.2)))) ::
         (walkSubdirs (ge.map (fun e => (e.1, FsNode.file e.2))) "/myasset/.git"
           ++ [("/myasset/media", [], ["logo.png"])])) := rfl
  rw [hwalk, dirNames_all_files, fileNames_all_files, walkSubdirs_all_files]
  unfold zipEntriesOfWalk
  rw [List.nil_append, List.flatMap_cons, List.flatMap_cons, List.flatMap_cons,
    List.flatMap_nil]
  dsimp only
  rw [git_files_all_skipped (ge.map Prod.fst)
    (fun f hf => by
      obtain ⟨e, he, rfl⟩ := List.mem_map.mp hf
      exact h e he)]
  rfl

/-- **C9**: for an asset root containing exactly the manifest
(`name=My Asset`, `assetType=scenario`), a `.git` directory with any files
inside, and `media/logo.png`, `make_asset_zip` returns the path
`dest/asset-MyAsset.zip` and the archive's members are exactly
`asset.properties` and `media/logo.png` — in particular no path under
`.git`. -/
theorem make_asset_zip_git_scenario (ge : List (String × List String))
    (h : ∀ e ∈ ge, pyStartsWith e.1 "/" = false) :
    (make_asset_zip (fsC9 ge) "/myasset" (some "/dest") "/home").map
        (fun t => (t.2.1, t.2.2)) =
      .ok ("/dest/asset-MyAsset.zip", ["asset.properties", "media/logo.png"]) := by
  have h1 : (make_asset_zip (fsC9 ge) "/myasset" (some "/dest") "/home").map
      (fun t => (t.2.1, t.2.2)) =
      .ok ("/dest/asset-MyAsset.zip", zipEntries (fsC9 ge) "/myasset") := rfl
  rw [h1, zipEntries_scenario ge h]

/-- Witness for C9 with a one-file `.git` directory. -/
theorem make_asset_zip_git_scenario_witness :
    (make_asset_zip (fsC9 [("HEAD", ["ref: refs/heads/master"])]) "/myasset"
        (some "/dest") "/home").map (fun t => (t.2.1, t.2.2)) =
      .ok ("/dest/asset-MyAsset.zip", ["asset.properties", "media/logo.png"]) :=
  make_asset_zip_git_scenario [("HEAD", ["ref: refs/heads/master"])] (by decide)

/-! ## Inversion lemmas for the validator stages -/

theorem requireProp_ok_iff (v : Option String) (m1 m2 s : String) :
    requireProp v m1 m2 = .ok s ↔ v = some s ∧ s ≠ "" := by
  unfold requireProp
  cases v with
  | none => simp
  | some x =>
    by_cases hx : x = ""
    · subst hx; simp
      intro h; exact h.symm
    · simp [hx]
      intro h; subst h; simpa using hx

theorem checkDocFile_ok_iff (fs : FsNode) (adp : String) (rel : Option String)
    (p : String) :
    checkDocFile fs adp rel = .ok p ↔
      (p = (if pyTruthy rel then osPathJoin adp (rel.getD "") else "") ∧
       (pyTruthy rel = true → isfile fs (osPathJoin adp (rel.getD "")) = true)) := by
  unfold checkDocFile
  cases ht : pyTruthy rel with
  | false => simp; exact eq_comm
  | true =>
    cases hf : isfile fs (osPathJoin adp (rel.getD "")) with
    | false => simp [hf]
    | true => simp [hf]; exact eq_comm

theorem checkLicenseFile_ok_iff (fs : FsNode) (adp : String) (rel : Option String)
    (p : String) :
    checkLicenseFile fs adp rel = .ok p ↔
      (p = (if pyTruthy rel then osPathJoin adp (rel.getD "") else "") ∧
       (pyTruthy rel = true → isfile fs (osPathJoin adp (rel.getD "")) = true)) := by
  unfold checkLicenseFile
  cases ht : pyTruthy rel with
  | false => simp; exact eq_comm
  | true =>
    cases hf : isfile fs (osPathJoin adp (rel.getD "")) with
    | false => simp [hf]
    | true => simp [hf]; exact eq_comm

/-- Full characterization of a successful validation in terms of the parsed
manifest, the resolved doc/license paths and the root-item loop. -/
theorem validate_ok_iff (fs fs' : FsNode) (adp name : String) :
    validate_asset_structure fs adp = .ok (fs', name) ↔
      (isfile fs (manifestPath adp) = true ∧
       (manifestProps fs adp).asset_name = some name ∧ name ≠ "" ∧
       (∃ at_, (manifestProps fs adp).asset_type = some at_ ∧ at_ ≠ "" ∧
         checkInstallScript fs adp at_ (manifestProps fs adp).install_script_rel_path = .ok ()) ∧
       (pyTruthy (manifestProps fs adp).doc_file_rel_path = true →
         isfile fs (osPathJoin adp ((manifestProps fs adp).doc_file_rel_path.getD "")) = true) ∧
       (pyTruthy (manifestProps fs adp).license_file_rel_path = true →
         isfile fs (osPathJoin adp ((manifestProps fs adp).license_file_rel_path.getD "")) = true) ∧
       checkRootItems adp (manifestPath adp) (resolvedLicensePath fs adp) (resolvedDocPath fs adp)
         (manifestProps fs adp).doc_file_rel_path (manifestProps fs adp).license_file_rel_path
         fs (listdir fs adp) = .ok fs') := by
  unfold validate_asset_structure
  rw [show osPathJoin adp "asset.properties" = manifestPath adp from rfl]
  rw [show parseAssetProps (readLines fs (manifestPath adp)) = manifestProps fs adp from rfl]
  constructor
  · intro h
    cases hfile : isfile fs (manifestPath adp) with
    | false => rw [hfile] at h; exact absurd h (by simp)
    | true =>
      rw [hfile] at h
      simp only [Bool.true_eq_false, if_false] at h
      cases hname : requireProp (manifestProps fs adp).asset_name
          "Required property [name] not found in asset properties file"
          "Required property [name] found blank in asset properties file" with
      | error e => rw [hname] at h; exact absurd h (by simp)
      | ok an =>
        rw [hname] at h
        dsimp only at h
        cases htype : requireProp (manifestProps fs adp).asset_type
            "Required property [asset_type] not found in asset properties file"
            "Required property [asset_type] found blank in asset properties file" with
        | error e => rw [htype] at h; exact absurd h (by simp)
        | ok at_ =>
          rw [htype] at h
          dsimp only at h
          cases hdoc : checkDocFile fs adp (manifestProps fs adp).doc_file_rel_path with
          | error e => rw [hdoc] at h; exact absurd h (by simp)
          | ok dfp =>
            rw [hdoc] at h
            dsimp only at h
            cases hlic : checkLicenseFile fs adp (manifestProps fs adp).license_file_rel_path with
            | error e => rw [hlic] at h; exact absurd h (by simp)
            | ok lfp =>
              rw [hlic] at h
              dsimp only at h
              cases hinst : checkInstallScript fs adp at_
                  (manifestProps fs adp).install_script_rel_path with
              | error e => rw [hinst] at h; exact absurd h (by simp)
              | ok u =>
                rw [hinst] at h
                dsimp only at h
                cases hloop : checkRootItems adp (manifestPath adp) lfp dfp
                    (manifestProps fs adp).doc_file_rel_path
                    (manifestProps fs adp).license_file_rel_path
                    fs (listdir fs adp) with
                | error e => rw [hloop] at h; exact absurd h (by simp)
                | ok fs2 =>
                  rw [hloop] at h
                  dsimp only at h
                  simp only [Except.ok.injEq, Prod.mk.injEq] at h
                  obtain ⟨hfs2, han⟩ := h
                  subst hfs2; subst han
                  obtain ⟨hname1, hname2⟩ := (requireProp_ok_iff _ _ _ _).mp hname
                  obtain ⟨htype1, htype2⟩ := (requireProp_ok_iff _ _ _ _).mp htype
                  obtain ⟨hdoc1, hdoc2⟩ := (checkDocFile_ok_iff _ _ _ _).mp hdoc
                  obtain ⟨hlic1, hlic2⟩ := (checkLicenseFile_ok_iff _ _ _ _).mp hlic
                  have hdfp : dfp = resolvedDocPath fs adp := hdoc1
                  have hlfp : lfp = resolvedLicensePath fs adp := hlic1
                  subst hdfp; subst hlfp
                  refine ⟨rfl, hname1, hname2, ⟨at_, htype1, htype2, ?_⟩, hdoc2, hlic2, hloop⟩
                  cases u; exact hinst
  · rintro ⟨hfile, hname1, hname2, ⟨at_, htype1, htype2, hinst⟩, hdoc2, hlic2, hloop⟩
    rw [hfile]
    simp only [Bool.true_eq_false, if_false]
    rw [(requireProp_ok_iff _ _ _ name).mpr ⟨hname1, hname2⟩]
    dsimp only
    rw [(requireProp_ok_iff _ _ _ at_).mpr ⟨htype1, htype2⟩]
    dsimp only
    rw [(checkDocFile_ok_iff fs adp _ (resolvedDocPath fs adp)).mpr ⟨rfl, hdoc2⟩]
    dsimp only
    rw [(checkLicenseFile_ok_iff fs adp _ (resolvedLicensePath fs adp)).mpr ⟨rfl, hlic2⟩]
    dsimp only
    rw [hinst]
    dsimp only
    rw [hloop]

/-- **C1**: whenever validation succeeds (every structural check passes),
`validate_asset_structure` returns exactly the value parsed for the
manifest's `name` property, unchanged. -/
theorem validate_returns_manifest_name (fs fs' : FsNode) (adp name : String)
    (h : validate_asset_structure fs adp = .ok (fs', name)) :
    (manifestProps fs adp).asset_name = some name :=
  ((validate_ok_iff fs fs' adp name).mp h).2.1

/-- Witness for C1 on a concrete valid asset directory. -/
theorem validate_returns_manifest_name_witness :
    (manifestProps (fsC2) "/a").asset_name = some "C2 Asset" :=
  validate_returns_manifest_name fsC2 fsC2 "/a" "C2 Asset" rfl

/-! ## Claim C6: a `doc` directory at the asset root is always rejected -/

/-- In the tree model a path cannot be both a file and a directory. -/
theorem not_isfile_and_isdir (fs : FsNode) (p : String)
    (hf : isfile fs p = true) (hd : isdir fs p = true) : False := by
  unfold isfile at hf
  unfold isdir at hd
  split at hf
  · exact absurd hf (by simp)
  · cases hl : fs.lookup (pathComponents p) with
    | none => rw [hl] at hf; exact absurd hf (by simp)
    | some n =>
      rw [hl] at hf hd
      cases n with
      | file l => exact absurd hd (by simp)
      | dir cs => exact absurd hf (by simp)

theorem append_ne_empty_right (a b : String) (hb : b ≠ "") : a ++ b ≠ "" := by
  intro hc
  have h1 : (a ++ b).data = [] := by rw [hc]
  rw [string_data_append] at h1
  apply hb
  have h2 : b.data = [] := (List.append_eq_nil.mp h1).2
  exact String.ext h2

/-- Joining a nonempty final component never yields the empty string. -/
theorem osPathJoin_ne_empty (a b : String) (hb : b ≠ "") : osPathJoin a b ≠ "" := by
  unfold osPathJoin
  split
  · exact hb
  · split
    · exact hb
    · split
      · exact append_ne_empty_right a b hb
      · exact append_ne_empty_right (a ++ "/") b hb

/-- Once an item named `doc` is among the remaining root items and its path
differs from the accepted license/doc/manifest paths, the classification loop
can never succeed: the `doc` branch raises unconditionally and every other
branch either raises or recurses. -/
theorem checkRootItems_doc_never_ok (adp props lic doc : String) (dr lr : Option String)
    (hl : osPathJoin adp "doc" ≠ lic) (hd : osPathJoin adp "doc" ≠ doc)
    (hp : osPathJoin adp "doc" ≠ props) :
    ∀ (items : List String) (fs fs' : FsNode), "doc" ∈ items →
      checkRootItems adp props lic doc dr lr fs items ≠ .ok fs' := by
  intro items
  induction items with
  | nil => intro fs fs' hmem; exact absurd hmem (List.not_mem_nil _)
  | cons item rest ih =>
    intro fs fs' hmem hok
    by_cases hitem : item = "doc"
    · subst hitem
      unfold checkRootItems at hok
      have hacc : ¬("doc" ∈ acceptable_dirs ∧ isdir fs (osPathJoin adp "doc") = true) := by
        intro hc
        exact absurd hc.1 (by decide)
      rw [if_neg hl, if_neg hd, if_neg hp,
        if_neg (by decide : ¬("doc" ∈ ignore_items)), if_neg hacc,
        if_neg (by decide : ¬("doc" = "VERSION")), if_pos rfl] at hok
      exact Except.noConfusion hok
    · have hmem' : "doc" ∈ rest := by
        rcases List.mem_cons.mp hmem with h1 | h1
        · exact absurd h1.symm hitem
        · exact h1
      unfold checkRootItems at hok
      repeat' split at hok
      all_goals
        first
          | exact Except.noConfusion hok
          | exact ih _ fs' hmem' hok

/-- **C6**: any asset directory with a directory named `doc` at its root
fails validation, regardless of the manifest's content (in particular even
when `documentationFile` or `licenseFile` is declared as `doc`, since the
declared path must then be a file, which a directory cannot be). -/
theorem doc_dir_always_rejected (fs : FsNode) (adp : String)
    (hdir : isdir fs (osPathJoin adp "doc") = true)
    (hmem : "doc" ∈ listdir fs adp) :
    ∃ e, validate_asset_structure fs adp = .error e := by
  cases hv : validate_asset_structure fs adp with
  | error e => exact ⟨e, rfl⟩
  | ok v =>
    exfalso
    obtain ⟨fs', name⟩ := v
    obtain ⟨hfile, _, _, _, hdoc2, hlic2, hloop⟩ := (validate_ok_iff fs fs' adp name).mp hv
    have hnl : osPathJoin adp "doc" ≠ resolvedLicensePath fs adp := by
      intro hc
      unfold resolvedLicensePath at hc
      split at hc
      next htr =>
        exact not_isfile_and_isdir fs (osPathJoin adp "doc") (by rw [hc]; exact hlic2 htr) hdir
      next htr => exact osPathJoin_ne_empty adp "doc" (by decide) hc
    have hnd : osPathJoin adp "doc" ≠ resolvedDocPath fs adp := by
      intro hc
      unfold resolvedDocPath at hc
      split at hc
      next htr =>
        exact not_isfile_and_isdir fs (osPathJoin adp "doc") (by rw [hc]; exact hdoc2 htr) hdir
      next htr => exact osPathJoin_ne_empty adp "doc" (by decide) hc
    have hnp : osPathJoin adp "doc" ≠ manifestPath adp := by
      intro hc
      exact not_isfile_and_isdir fs (osPathJoin adp "doc") (by rw [hc]; exact hfile) hdir
    exact checkRootItems_doc_never_ok adp (manifestPath adp) (resolvedLicensePath fs adp)
      (resolvedDocPath fs adp) (manifestProps fs adp).doc_file_rel_path
      (manifestProps fs adp).license_file_rel_path hnl hnd hnp
      (listdir fs adp) fs fs' hmem hloop

/-- Witness for C6: a concrete asset directory with a root `doc` directory
(and an otherwise valid manifest) fails validation. -/
theorem doc_dir_always_rejected_witness :
    ∃ e, validate_asset_structure
      (FsNode.dir [("a", .dir [
        ("asset.properties", .file ["name=X", "assetType=scenario"]),
        ("doc", .dir [])])]) "/a" = .error e :=
  doc_dir_always_rejected
    (FsNode.dir [("a", .dir [
      ("asset.properties", .file ["name=X", "assetType=scenario"]),
      ("doc", .dir [])])]) "/a" rfl (by decide)

/-! ## Path-component arithmetic -/

theorem splitSlash_ne_nil (xs : List Char) : splitSlash xs ≠ [] := by
  induction xs with
  | nil => simp [splitSlash]
  | cons c rest ih =>
    unfold splitSlash
    by_cases hc : c = '/'
    · simp [hc]
    · rw [if_neg hc]
      cases hs : splitSlash rest with
      | nil => simp
      | cons g gs => simp

theorem splitSlash_cons (c : Char) (rest : List Char) :
    splitSlash (c :: rest) =
      if c = '/' then [] :: splitSlash rest
      else match splitSlash rest with
        | [] => [[c]]
        | g :: gs => (c :: g) :: gs := rfl

theorem splitSlash_append (xs ys : List Char) :
    splitSlash (xs ++ '/' :: ys) = splitSlash xs ++ splitSlash ys := by
  induction xs with
  | nil => rfl
  | cons c rest ih =>
    rw [List.cons_append, splitSlash_cons, splitSlash_cons]
    by_cases hc : c = '/'
    · rw [if_pos hc, if_pos hc, ih]
      rfl
    · rw [if_neg hc, if_neg hc, ih]
      cases hs : splitSlash rest with
      | nil => exact absurd hs (splitSlash_ne_nil rest)
      | cons g gs => rfl

/-- Joining a non-absolute component appends its path components: this is
how the kernel resolves the joined path. -/
theorem pathComponents_append (r b : String) (hb : pyStartsWith b "/" = false) :
    pathComponents (osPathJoin r b) = pathComponents r ++ pathComponents b := by
  unfold osPathJoin
  rw [hb]
  simp only [Bool.false_eq_true, if_false]
  by_cases hr : r = ""
  · subst hr
    rw [if_pos rfl]
    rfl
  · rw [if_neg hr]
    by_cases hre : pyEndsWith r "/" = true
    · rw [if_pos hre]
      obtain ⟨xs, hxs⟩ : ∃ xs, r.data = xs ++ ['/'] := by
        have h2 : ['/'] <:+ r.data := List.isSuffixOf_iff_suffix.mp hre
        obtain ⟨t, ht⟩ := h2
        exact ⟨t, ht.symm⟩
      unfold pathComponents
      rw [string_data_append, hxs]
      rw [show (xs ++ ['/']) ++ b.data = xs ++ '/' :: b.data from by simp]
      rw [splitSlash_append]
      rw [show xs ++ ['/'] = xs ++ '/' :: ([] : List Char) from rfl, splitSlash_append]
      simp [splitSlash]
    · have hre' : pyEndsWith r "/" = false := by
        cases hrr : pyEndsWith r "/" with
        | false => rfl
        | true => exact absurd hrr hre
      rw [hre']
      simp only [Bool.false_eq_true, if_false]
      unfold pathComponents
      rw [string_data_append, string_data_append]
      rw [show ("/" : String).data = ['/'] from rfl]
      rw [show (r.data ++ ['/']) ++ b.data = r.data ++ '/' :: b.data from by simp]
      rw [splitSlash_append]
      simp

/-- Two joins of distinct single-component names onto the same base differ. -/
theorem osPathJoin_ne_of_single_ne (adp a b : String)
    (ha : pyStartsWith a "/" = false) (hb : pyStartsWith b "/" = false)
    (hca : pathComponents a = [a]) (hcb : pathComponents b = [b])
    (hne : a ≠ b) : osPathJoin adp a ≠ osPathJoin adp b := by
  intro hc
  have h1 : pathComponents (osPathJoin adp a) = pathComponents (osPathJoin adp b) := by
    rw [hc]
  rw [pathComponents_append adp a ha, pathComponents_append adp b hb, hca, hcb] at h1
  have h2 : [a] = [b] := List.append_cancel_left h1
  exact hne (by injection h2)

/-! ## Lookup, removal and membership lemmas for the filesystem model -/

theorem lookup_append (q : List String) :
    ∀ (n : FsNode) (r : List String),
      n.lookup (q ++ r) = Option.bind (n.lookup q) (fun m => m.lookup r) := by
  induction q with
  | nil => intro n r; cases n <;> rfl
  | cons c q' ih =>
    intro n r
    cases n with
    | file l => rfl
    | dir cs =>
      show FsNode.lookup (.dir cs) (c :: (q' ++ r)) = _
      have h1 : FsNode.lookup (.dir cs) (c :: (q' ++ r)) =
          (match findEntry cs c with
           | some child => child.lookup (q' ++ r)
           | none => none) := rfl
      have h2 : FsNode.lookup (.dir cs) (c :: q') =
          (match findEntry cs c with
           | some child => child.lookup q'
           | none => none) := rfl
      rw [h1, h2]
      cases findEntry cs c with
      | none => rfl
      | some child => exact ih child r

theorem findEntry_mem_names (cs : List (String × FsNode)) (a : String) (x : FsNode)
    (h : findEntry cs a = some x) : a ∈ cs.map Prod.fst := by
  induction cs with
  | nil => simp [findEntry] at h
  | cons e rest ih =>
    unfold findEntry at h
    by_cases he : e.1 = a
    · rw [List.map_cons]
      exact List.mem_cons.mpr (Or.inl he.symm)
    · rw [if_neg he] at h
      rw [List.map_cons]
      exact List.mem_cons_of_mem _ (ih h)

/-- A file at `adp/b` (for a slash-free name `b`) means `b` is listed in the
directory at `adp`. -/
theorem mem_listdir_of_isfile_join (fs : FsNode) (adp b : String)
    (hb : pyStartsWith b "/" = false) (hcb : pathComponents b = [b])
    (hf : isfile fs (osPathJoin adp b) = true) : b ∈ listdir fs adp := by
  unfold isfile at hf
  split at hf
  · exact absurd hf (by simp)
  · rw [pathComponents_append adp b hb, hcb, lookup_append (pathComponents adp) fs [b]] at hf
    cases hl : fs.lookup (pathComponents adp) with
    | none => rw [hl] at hf; exact absurd hf (by simp)
    | some m =>
      rw [hl] at hf
      cases m with
      | file l => exact absurd hf (by simp [FsNode.lookup])
      | dir cs =>
        unfold listdir
        rw [hl]
        cases hfe : findEntry cs b with
        | none =>
          have : FsNode.lookup (.dir cs) [b] = none := by
            show (match findEntry cs b with
              | some child => child.lookup ([] : List String)
              | none => none) = none
            rw [hfe]
          rw [show Option.bind (some (FsNode.dir cs)) (fun m => m.lookup [b]) =
            FsNode.lookup (.dir cs) [b] from rfl, this] at hf
          exact absurd hf (by simp)
        | some x => exact findEntry_mem_names cs b x hfe

theorem findEntry_removeEntry (cs : List (String × FsNode)) (c a : String) :
    findEntry (removeEntry cs c) a = if a = c then none else findEntry cs a := by
  induction cs with
  | nil =>
    unfold removeEntry findEntry
    simp
  | cons e rest ih =>
    by_cases hec : e.1 = c
    · have h1 : removeEntry (e :: rest) c = removeEntry rest c := by
        simp [removeEntry, List.filter_cons, hec]
      rw [h1, ih]
      by_cases hac : a = c
      · rw [if_pos hac, if_pos hac]
      · rw [if_neg hac, if_neg hac]
        have hea : e.1 ≠ a := fun hh => hac (hh.symm.trans hec)
        rw [show findEntry (e :: rest) a
          = (if e.1 = a then some e.2 else findEntry rest a) from rfl, if_neg hea]
    · have h1 : removeEntry (e :: rest) c = e :: removeEntry rest c := by
        simp [removeEntry, List.filter_cons, hec]
      rw [h1]
      rw [show findEntry (e :: removeEntry rest c) a
        = (if e.1 = a then some e.2 else findEntry (removeEntry rest c) a) from rfl]
      rw [show findEntry (e :: rest) a
        = (if e.1 = a then some e.2 else findEntry rest a) from rfl]
      by_cases hea : e.1 = a
      · rw [if_pos hea, if_pos hea]
        rw [if_neg (fun hac : a = c => hec (hea.trans hac))]
      · rw [if_neg hea, if_neg hea, ih]

theorem findEntry_replaceEntry (cs : List (String × FsNode)) (c a : String) (x : FsNode) :
    findEntry (replaceEntry cs c x) a =
      if a = c then (findEntry cs c).map (fun _ => x) else findEntry cs a := by
  induction cs with
  | nil =>
    unfold replaceEntry findEntry
    simp
  | cons e rest ih =>
    by_cases hec : e.1 = c
    · have h1 : replaceEntry (e :: rest) c x = (c, x) :: rest := by
        simp [replaceEntry, hec]
      rw [h1]
      rw [show findEntry ((c, x) :: rest) a
        = (if c = a then some x else findEntry rest a) from rfl]
      rw [show findEntry (e :: rest) c
        = (if e.1 = c then some e.2 else findEntry rest c) from rfl, if_pos hec]
      by_cases hac : a = c
      · rw [if_pos hac.symm, if_pos hac]
        rfl
      · rw [if_neg (fun h : c = a => hac h.symm), if_neg hac]
        rw [show findEntry (e :: rest) a
          = (if e.1 = a then some e.2 else findEntry rest a) from rfl]
        rw [if_neg (fun hea : e.1 = a => hac (hea.symm.trans hec))]
    · have h1 : replaceEntry (e :: rest) c x = e :: replaceEntry rest c x := by
        simp [replaceEntry, hec]
      rw [h1]
      rw [show findEntry (e :: replaceEntry rest c x) a
        = (if e.1 = a then some e.2 else findEntry (replaceEntry rest c x) a) from rfl]
      rw [show findEntry (e :: rest) a
        = (if e.1 = a then some e.2 else findEntry rest a) from rfl]
      rw [show findEntry (e :: rest) c
        = (if e.1 = c then some e.2 else findEntry rest c) from rfl, if_neg hec]
      by_cases hea : e.1 = a
      · rw [if_pos hea, if_pos hea]
        rw [if_neg (fun hac : a = c => hec (hea.trans hac))]
      · rw [if_neg hea, if_neg hea, ih]

/-- Removal never creates files: a file found after `removePath` was already
there, with the same content. -/
theorem lookup_removePath_file_mono (q : List String) :
    ∀ (n : FsNode) (s : List String) (l : List String),
      (FsNode.removePath n q).lookup s = some (.file l) → n.lookup s = some (.file l) := by
  induction q with
  | nil => intro n s l h; cases n <;> exact h
  | cons c rest ih =>
    intro n s l h
    cases n with
    | file fl => exact h
    | dir cs =>
      cases rest with
      | nil =>
        cases s with
        | nil => exact absurd h (by simp [FsNode.removePath, FsNode.lookup])
        | cons a s' =>
          have h' : (match findEntry (removeEntry cs c) a with
              | some child => child.lookup s'
              | none => none) = some (FsNode.file l) := h
          rw [findEntry_removeEntry] at h'
          by_cases hac : a = c
          · rw [if_pos hac] at h'
            exact absurd h' (by simp)
          · rw [if_neg hac] at h'
            exact h'
      | cons c' rest' =>
        cases hfe : findEntry cs c with
        | none =>
          have hrw : FsNode.removePath (.dir cs) (c :: c' :: rest') = .dir cs := by
            rw [show FsNode.removePath (.dir cs) (c :: c' :: rest')
              = (match findEntry cs c with
                 | some child => FsNode.dir (replaceEntry cs c (child.removePath (c' :: rest')))
                 | none => FsNode.dir cs) from rfl, hfe]
          rw [hrw] at h
          exact h
        | some child =>
          have hrw : FsNode.removePath (.dir cs) (c :: c' :: rest') =
              .dir (replaceEntry cs c (child.removePath (c' :: rest'))) := by
            rw [show FsNode.removePath (.dir cs) (c :: c' :: rest')
              = (match findEntry cs c with
                 | some child => FsNode.dir (replaceEntry cs c (child.removePath (c' :: rest')))
                 | none => FsNode.dir cs) from rfl, hfe]
          rw [hrw] at h
          cases s with
          | nil => exact absurd h (by simp [FsNode.lookup])
          | cons a s' =>
            have h' : (match findEntry (replaceEntry cs c (child.removePath (c' :: rest'))) a with
                | some child2 => child2.lookup s'
                | none => none) = some (FsNode.file l) := h
            rw [findEntry_replaceEntry, hfe] at h'
            by_cases hac : a = c
            · rw [if_pos hac] at h'
              have h2 := ih child s' l (by simpa using h')
              show (match findEntry cs a with
                | some child2 => child2.lookup s'
                | none => none) = some (FsNode.file l)
              rw [hac, hfe]
              exact h2
            · rw [if_neg hac] at h'
              exact h'

/-- After removing a non-root path, no file remains at that exact path. -/
theorem lookup_removePath_self_not_file (q : List String) (hq : q ≠ []) :
    ∀ (n : FsNode) (l : List String),
      (FsNode.removePath n q).lookup q ≠ some (.file l) := by
  induction q with
  | nil => exact absurd rfl hq
  | cons c rest ih =>
    intro n l h
    cases n with
    | file fl => exact absurd h (by simp [FsNode.removePath, FsNode.lookup])
    | dir cs =>
      cases rest with
      | nil =>
        have h' : (match findEntry (removeEntry cs c) c with
            | some child => child.lookup ([] : List String)
            | none => none) = some (FsNode.file l) := h
        rw [findEntry_removeEntry, if_pos rfl] at h'
        exact absurd h' (by simp)
      | cons c' rest' =>
        cases hfe : findEntry cs c with
        | none =>
          have hrw : FsNode.removePath (.dir cs) (c :: c' :: rest') = .dir cs := by
            rw [show FsNode.removePath (.dir cs) (c :: c' :: rest')
              = (match findEntry cs c with
                 | some child => FsNode.dir (replaceEntry cs c (child.removePath (c' :: rest')))
                 | none => FsNode.dir cs) from rfl, hfe]
          rw [hrw] at h
          have h' : (match findEntry cs c with
              | some child => child.lookup (c' :: rest')
              | none => none) = some (FsNode.file l) := h
          rw [hfe] at h'
          exact absurd h' (by simp)
        | some child =>
          have hrw : FsNode.removePath (.dir cs) (c :: c' :: rest') =
              .dir (replaceEntry cs c (child.removePath (c' :: rest'))) := by
            rw [show FsNode.removePath (.dir cs) (c :: c' :: rest')
              = (match findEntry cs c with
                 | some child => FsNode.dir (replaceEntry cs c (child.removePath (c' :: rest')))
                 | none => FsNode.dir cs) from rfl, hfe]
          rw [hrw] at h
          have h' : (match findEntry (replaceEntry cs c (child.removePath (c' :: rest'))) c with
              | some child2 => child2.lookup (c' :: rest')
              | none => none) = some (FsNode.file l) := h
          rw [findEntry_replaceEntry, if_pos rfl, hfe] at h'
          exact ih (by simp) child l (by simpa using h')

theorem isfile_removeP_mono (fs : FsNode) (p q : String)
    (h : isfile (removeP fs p) q = true) : isfile fs q = true := by
  unfold isfile at h ⊢
  cases hend : pyEndsWith q "/" with
  | true => rw [hend] at h; exact absurd h (by simp)
  | false =>
    rw [hend] at h
    simp only [Bool.false_eq_true, if_false] at h ⊢
    cases hl : (removeP fs p).lookup (pathComponents q) with
    | none => rw [hl] at h; exact absurd h (by simp)
    | some node =>
      rw [hl] at h
      cases node with
      | dir cs => exact absurd h (by simp)
      | file l =>
        rw [lookup_removePath_file_mono (pathComponents p) fs (pathComponents q) l hl]

theorem isfile_removeP_self (fs : FsNode) (p : String) (hp : pathComponents p ≠ []) :
    isfile (removeP fs p) p = false := by
  unfold isfile
  cases hend : pyEndsWith p "/" with
  | true => simp [hend]
  | false =>
    simp only [hend, Bool.false_eq_true, if_false]
    cases hl : (removeP fs p).lookup (pathComponents p) with
    | none => rfl
    | some node =>
      cases node with
      | file l => exact absurd hl (lookup_removePath_self_not_file (pathComponents p) hp fs l)
      | dir cs => rfl

/-! ## Claim C7: deletion of a root VERSION file -/

/-- Removals in the root-item loop never create files: success of the loop
only ever shrinks the set of files. -/
theorem checkRootItems_ok_isfile_mono (adp props lic doc : String) (dr lr : Option String) :
    ∀ (items : List String) (fs fs' : FsNode),
      checkRootItems adp props lic doc dr lr fs items = .ok fs' →
      ∀ q, isfile fs' q = true → isfile fs q = true := by
  intro items
  induction items with
  | nil =>
    intro fs fs' hok q hq
    injection hok with h
    rw [h]
    exact hq
  | cons item rest ih =>
    intro fs fs' hok q hq
    unfold checkRootItems at hok
    repeat' split at hok
    all_goals
      first
        | exact Except.noConfusion hok
        | exact ih fs fs' hok q hq
        | exact isfile_removeP_mono fs (osPathJoin adp item) q (ih _ fs' hok q hq)

/-- If a root item named `VERSION` (whose path is not one of the accepted
license/doc/manifest paths) is processed and the loop succeeds, the file at
that path has been deleted. -/
theorem checkRootItems_version_removed (adp props lic doc : String) (dr lr : Option String)
    (hl : osPathJoin adp "VERSION" ≠ lic) (hd : osPathJoin adp "VERSION" ≠ doc)
    (hp : osPathJoin adp "VERSION" ≠ props)
    (hcomps : pathComponents (osPathJoin adp "VERSION") ≠ []) :
    ∀ (items : List String) (fs fs' : FsNode), "VERSION" ∈ items →
      checkRootItems adp props lic doc dr lr fs items = .ok fs' →
      isfile fs' (osPathJoin adp "VERSION") = false := by
  intro items
  induction items with
  | nil => intro fs fs' hmem; exact absurd hmem (List.not_mem_nil _)
  | cons item rest ih =>
    intro fs fs' hmem hok
    by_cases hitem : item = "VERSION"
    · subst hitem
      unfold checkRootItems at hok
      have hacc : ¬("VERSION" ∈ acceptable_dirs ∧ isdir fs (osPathJoin adp "VERSION") = true) := by
        intro hc
        exact absurd hc.1 (by decide)
      rw [if_neg hl, if_neg hd, if_neg hp,
        if_neg (by decide : ¬("VERSION" ∈ ignore_items)), if_neg hacc, if_pos rfl] at hok
      cases hvf : isfile fs (osPathJoin adp "VERSION") with
      | false =>
        rw [hvf, if_neg Bool.false_ne_true] at hok
        exact Except.noConfusion hok
      | true =>
        rw [hvf, if_pos rfl] at hok
        cases hres : isfile fs' (osPathJoin adp "VERSION") with
        | false => rfl
        | true =>
          have h2 := checkRootItems_ok_isfile_mono adp props lic doc dr lr rest
            (removeP fs (osPathJoin adp "VERSION")) fs' hok (osPathJoin adp "VERSION") hres
          rw [isfile_removeP_self fs (osPathJoin adp "VERSION") hcomps] at h2
          exact Bool.noConfusion h2
    · have hmem' : "VERSION" ∈ rest := by
        rcases List.mem_cons.mp hmem with h1 | h1
        · exact absurd h1.symm hitem
        · exact h1
      unfold checkRootItems at hok
      repeat' split at hok
      all_goals
        first
          | exact Except.noConfusion hok
          | exact ih _ fs' hmem' hok

/-- **C7 (counterexample)**: when the manifest declares `licenseFile=VERSION`,
the root `VERSION` file is accepted through the license-path branch (checked
*before* the `VERSION` branch) and kept: validation succeeds with the
filesystem unchanged, so the claim as stated is false. -/
theorem version_not_always_deleted : ¬ versionAlwaysDeletedClaim := by
  intro hclaim
  have h1 := hclaim fsC7 fsC7 "/a" "V Asset" rfl rfl
  exact absurd h1 (by decide)

/-- **C7 (amended)**: for every otherwise-valid asset directory containing a
root file named `VERSION` that is *not* the manifest's resolved
documentationFile or licenseFile path, validation succeeds with the
`VERSION` file deleted as a side effect (and, per C1, still returns the
asset name). -/
theorem version_file_deleted_unless_declared (fs fs' : FsNode) (adp name : String)
    (hok : validate_asset_structure fs adp = .ok (fs', name))
    (hvf : isfile fs (osPathJoin adp "VERSION") = true)
    (hnl : osPathJoin adp "VERSION" ≠ resolvedLicensePath fs adp)
    (hnd : osPathJoin adp "VERSION" ≠ resolvedDocPath fs adp) :
    isfile fs' (osPathJoin adp "VERSION") = false := by
  obtain ⟨hfile, _, _, _, _, _, hloop⟩ := (validate_ok_iff fs fs' adp name).mp hok
  have hnp : osPathJoin adp "VERSION" ≠ manifestPath adp :=
    osPathJoin_ne_of_single_ne adp "VERSION" "asset.properties" (by decide) (by decide)
      (by decide) (by decide) (by decide)
  have hcomps : pathComponents (osPathJoin adp "VERSION") ≠ [] := by
    rw [pathComponents_append adp "VERSION" (by decide),
      show pathComponents "VERSION" = ["VERSION"] from rfl]
    simp
  have hmem : "VERSION" ∈ listdir fs adp :=
    mem_listdir_of_isfile_join fs adp "VERSION" (by decide) (by decide) hvf
  exact checkRootItems_version_removed adp (manifestPath adp) (resolvedLicensePath fs adp)
    (resolvedDocPath fs adp) (manifestProps fs adp).doc_file_rel_path
    (manifestProps fs adp).license_file_rel_path hnl hnd hnp hcomps
    (listdir fs adp) fs fs' hmem hloop

/-- Witness for the amended C7: an asset with an undeclared `VERSION` file
validates successfully and the file is gone afterwards. -/
theorem version_file_deleted_unless_declared_witness :
    isfile (FsNode.dir [("a", FsNode.dir [("asset.properties",
        FsNode.file ["name=V Asset", "assetType=scenario"])])]) "/a/VERSION" = false :=
  version_file_deleted_unless_declared
    (FsNode.dir [("a", FsNode.dir [
      ("asset.properties", FsNode.file ["name=V Asset", "assetType=scenario"]),
      ("VERSION", FsNode.file ["1.0"])])])
    (FsNode.dir [("a", FsNode.dir [("asset.properties",
      FsNode.file ["name=V Asset", "assetType=scenario"])])])
    "/a" "V Asset" rfl rfl (by decide) (by decide)

/-! ## mkdir_p lemmas (for make_asset_zip's default destination) -/

theorem names_replaceEntry (cs : List (String × FsNode)) (c : String) (x : FsNode) :
    (replaceEntry cs c x).map Prod.fst = cs.map Prod.fst := by
  induction cs with
  | nil => rfl
  | cons e rest ih =>
    unfold replaceEntry
    by_cases hec : e.1 = c
    · rw [if_pos hec]
      simp [hec]
    · rw [if_neg hec]
      simp [ih]

theorem findEntry_append (cs ds : List (String × FsNode)) (a : String) :
    findEntry (cs ++ ds) a =
      match findEntry cs a with
      | some x => some x
      | none => findEntry ds a := by
  induction cs with
  | nil => rfl
  | cons e rest ih =>
    by_cases hea : e.1 = a
    · rw [show findEntry ((e :: rest) ++ ds) a
        = (if e.1 = a then some e.2 else findEntry (rest ++ ds) a) from rfl, if_pos hea,
        show findEntry (e :: rest) a = (if e.1 = a then some e.2 else findEntry rest a) from rfl,
        if_pos hea]
    · rw [show findEntry ((e :: rest) ++ ds) a
        = (if e.1 = a then some e.2 else findEntry (rest ++ ds) a) from rfl, if_neg hea,
        show findEntry (e :: rest) a = (if e.1 = a then some e.2 else findEntry rest a) from rfl,
        if_neg hea, ih]

theorem findEntry_of_mem_names (cs : List (String × FsNode)) (a : String)
    (h : a ∈ cs.map Prod.fst) : ∃ x, findEntry cs a = some x := by
  induction cs with
  | nil => simp at h
  | cons e rest ih =>
    rw [List.map_cons] at h
    by_cases hea : e.1 = a
    · exact ⟨e.2, by
        rw [show findEntry (e :: rest) a
          = (if e.1 = a then some e.2 else findEntry rest a) from rfl, if_pos hea]⟩
    · rcases List.mem_cons.mp h with h1 | h1
      · exact absurd h1.symm hea
      · obtain ⟨x, hx⟩ := ih h1
        exact ⟨x, by
          rw [show findEntry (e :: rest) a
            = (if e.1 = a then some e.2 else findEntry rest a) from rfl, if_neg hea, hx]⟩

/-- A directory chain freshly created by `mkdir -p` contains no files. -/
theorem mkdirp_chain_no_file (q : List String) :
    ∀ (s : List String) (l : List String),
      (FsNode.mkdirp (.dir []) q).lookup s ≠ some (.file l) := by
  induction q with
  | nil =>
    intro s l h
    cases s with
    | nil => exact absurd h (by simp [FsNode.lookup])
    | cons a s' => exact absurd h (by simp [FsNode.lookup, findEntry])
  | cons c rest ih =>
    intro s l h
    have hrw : FsNode.mkdirp (.dir []) (c :: rest) =
        .dir [(c, FsNode.mkdirp (.dir []) rest)] := rfl
    rw [hrw] at h
    cases s with
    | nil => exact absurd h (by simp [FsNode.lookup])
    | cons a s' =>
      have h' : (match findEntry [(c, FsNode.mkdirp (.dir []) rest)] a with
          | some x => x.lookup s'
          | none => none) = some (FsNode.file l) := h
      by_cases hca : c = a
      · rw [show findEntry [(c, FsNode.mkdirp (.dir []) rest)] a
          = (if c = a then some (FsNode.mkdirp (.dir []) rest) else none) from rfl,
          if_pos hca] at h'
        exact ih s' l h'
      · rw [show findEntry [(c, FsNode.mkdirp (.dir []) rest)] a
          = (if c = a then some (FsNode.mkdirp (.dir []) rest) else none) from rfl,
          if_neg hca] at h'
        exact absurd h' (by simp)

/-- `mkdir -p` neither creates nor alters any file: the files of the tree
are exactly preserved. -/
theorem lookup_mkdirp_file_iff (q : List String) :
    ∀ (n : FsNode) (s : List String) (l : List String),
      (FsNode.mkdirp n q).lookup s = some (.file l) ↔ n.lookup s = some (.file l) := by
  induction q with
  | nil => intro n s l; cases n <;> exact Iff.rfl
  | cons c rest ih =>
    intro n s l
    cases n with
    | file fl => exact Iff.rfl
    | dir cs =>
      cases hfe : findEntry cs c with
      | some child =>
        have hrw : FsNode.mkdirp (.dir cs) (c :: rest) =
            .dir (replaceEntry cs c (child.mkdirp rest)) := by
          rw [show FsNode.mkdirp (.dir cs) (c :: rest)
            = (match findEntry cs c with
               | some child => FsNode.dir (replaceEntry cs c (child.mkdirp rest))
               | none => FsNode.dir (cs ++ [(c, FsNode.mkdirp (.dir []) rest)])) from rfl, hfe]
        rw [hrw]
        cases s with
        | nil => simp [FsNode.lookup]
        | cons a s' =>
          rw [show FsNode.lookup (.dir (replaceEntry cs c (child.mkdirp rest))) (a :: s')
            = (match findEntry (replaceEntry cs c (child.mkdirp rest)) a with
               | some x => x.lookup s'
               | none => none) from rfl]
          rw [show FsNode.lookup (.dir cs) (a :: s')
            = (match findEntry cs a with
               | some x => x.lookup s'
               | none => none) from rfl]
          rw [findEntry_replaceEntry, hfe]
          by_cases hac : a = c
          · rw [if_pos hac, hac, hfe]
            simp only [Option.map_some']
            exact ih child s' l
          · rw [if_neg hac]
      | none =>
        have hrw : FsNode.mkdirp (.dir cs) (c :: rest) =
            .dir (cs ++ [(c, FsNode.mkdirp (.dir []) rest)]) := by
          rw [show FsNode.mkdirp (.dir cs) (c :: rest)
            = (match findEntry cs c with
               | some child => FsNode.dir (replaceEntry cs c (child.mkdirp rest))
               | none => FsNode.dir (cs ++ [(c, FsNode.mkdirp (.dir []) rest)])) from rfl, hfe]
        rw [hrw]
        cases s with
        | nil => simp [FsNode.lookup]
        | cons a s' =>
          rw [show FsNode.lookup (.dir (cs ++ [(c, FsNode.mkdirp (.dir []) rest)])) (a :: s')
            = (match findEntry (cs ++ [(c, FsNode.mkdirp (.dir []) rest)]) a with
               | some x => x.lookup s'
               | none => none) from rfl]
          rw [show FsNode.lookup (.dir cs) (a :: s')
            = (match findEntry cs a with
               | some x => x.lookup s'
               | none => none) from rfl]
          rw [findEntry_append]
          cases hfa : findEntry cs a with
          | some x => exact Iff.rfl
          | none =>
            by_cases hca : c = a
            · rw [show findEntry [(c, FsNode.mkdirp (.dir []) rest)] a
                = (if c = a then some (FsNode.mkdirp (.dir []) rest) else none) from rfl,
                if_pos hca]
              constructor
              · intro h
                exact absurd h (mkdirp_chain_no_file rest s' l)
              · intro h
                exact absurd h (by simp)
            · rw [show findEntry [(c, FsNode.mkdirp (.dir []) rest)] a
                = (if c = a then some (FsNode.mkdirp (.dir []) rest) else none) from rfl,
                if_neg hca]

/-- `mkdir -p` preserves existing directories and only adds child names. -/
theorem lookup_mkdirp_dir_names (q : List String) :
    ∀ (n : FsNode) (s : List String) (cs0 : List (String × FsNode)),
      n.lookup s = some (.dir cs0) →
      ∃ cs2, (FsNode.mkdirp n q).lookup s = some (.dir cs2) ∧
        ∀ a, a ∈ cs0.map Prod.fst → a ∈ cs2.map Prod.fst := by
  induction q with
  | nil =>
    intro n s cs0 h
    cases n <;> exact ⟨cs0, h, fun a ha => ha⟩
  | cons c rest ih =>
    intro n s cs0 h
    cases n with
    | file fl => exact ⟨cs0, h, fun a ha => ha⟩
    | dir cs =>
      cases hfe : findEntry cs c with
      | some child =>
        have hrw : FsNode.mkdirp (.dir cs) (c :: rest) =
            .dir (replaceEntry cs c (child.mkdirp rest)) := by
          rw [show FsNode.mkdirp (.dir cs) (c :: rest)
            = (match findEntry cs c with
               | some child => FsNode.dir (replaceEntry cs c (child.mkdirp rest))
               | none => FsNode.dir (cs ++ [(c, FsNode.mkdirp (.dir []) rest)])) from rfl, hfe]
        rw [hrw]
        cases s with
        | nil =>
          have hcs : cs = cs0 := by
            simpa [FsNode.lookup, FsNode.dir.injEq] using h
          refine ⟨replaceEntry cs c (child.mkdirp rest), rfl, ?_⟩
          rw [names_replaceEntry, hcs]
          exact fun a ha => ha
        | cons a s' =>
          have h' : (match findEntry cs a with
              | some x => x.lookup s'
              | none => none) = some (FsNode.dir cs0) := h
          rw [show FsNode.lookup (.dir (replaceEntry cs c (child.mkdirp rest))) (a :: s')
            = (match findEntry (replaceEntry cs c (child.mkdirp rest)) a with
               | some x => x.lookup s'
               | none => none) from rfl]
          rw [findEntry_replaceEntry, hfe]
          by_cases hac : a = c
          · rw [if_pos hac]
            rw [hac, hfe] at h'
            obtain ⟨cs2, h2, hsub⟩ := ih child s' cs0 h'
            exact ⟨cs2, by simpa [Option.map_some'] using h2, hsub⟩
          · rw [if_neg hac]
            exact ⟨cs0, h', fun a ha => ha⟩
      | none =>
        have hrw : FsNode.mkdirp (.dir cs) (c :: rest) =
            .dir (cs ++ [(c, FsNode.mkdirp (.dir []) rest)]) := by
          rw [show FsNode.mkdirp (.dir cs) (c :: rest)
            = (match findEntry cs c with
               | some child => FsNode.dir (replaceEntry cs c (child.mkdirp rest))
               | none => FsNode.dir (cs ++ [(c, FsNode.mkdirp (.dir []) rest)])) from rfl, hfe]
        rw [hrw]
        cases s with
        | nil =>
          have hcs : cs = cs0 := by
            simpa [FsNode.lookup, FsNode.dir.injEq] using h
          refine ⟨cs ++ [(c, FsNode.mkdirp (.dir []) rest)], rfl, ?_⟩
          intro a ha
          rw [List.map_append]
          exact List.mem_append_left _ (hcs ▸ ha)
        | cons a s' =>
          have h' : (match findEntry cs a with
              | some x => x.lookup s'
              | none => none) = some (FsNode.dir cs0) := h
          rw [show FsNode.lookup (.dir (cs ++ [(c, FsNode.mkdirp (.dir []) rest)])) (a :: s')
            = (match findEntry (cs ++ [(c, FsNode.mkdirp (.dir []) rest)]) a with
               | some x => x.lookup s'
               | none => none) from rfl]
          rw [findEntry_append]
          cases hfa : findEntry cs a with
          | some x =>
            rw [hfa] at h'
            exact ⟨cs0, h', fun a ha => ha⟩
          | none =>
            rw [hfa] at h'
            exact absurd h' (by simp)

theorem isfile_mkdirpP_eq (fs : FsNode) (r q : String) :
    isfile (mkdirpP fs r) q = isfile fs q := by
  unfold isfile mkdirpP
  cases hend : pyEndsWith q "/" with
  | true => rfl
  | false =>
    simp only [hend, Bool.false_eq_true, if_false]
    cases hl2 : (fs.mkdirp (pathComponents r)).lookup (pathComponents q) with
    | some node =>
      cases node with
      | file l =>
        rw [(lookup_mkdirp_file_iff (pathComponents r) fs (pathComponents q) l).mp hl2]
      | dir cs =>
        cases hl : fs.lookup (pathComponents q) with
        | some node2 =>
          cases node2 with
          | file l =>
            exact absurd ((lookup_mkdirp_file_iff (pathComponents r) fs (pathComponents q) l).mpr hl)
              (by rw [hl2]; simp)
          | dir cs2 => rfl
        | none => rfl
    | none =>
      cases hl : fs.lookup (pathComponents q) with
      | some node2 =>
        cases node2 with
        | file l =>
          exact absurd ((lookup_mkdirp_file_iff (pathComponents r) fs (pathComponents q) l).mpr hl)
            (by rw [hl2]; simp)
        | dir cs2 => rfl
      | none => rfl

theorem mem_listdir_mkdirpP (fs : FsNode) (r p a : String)
    (h : a ∈ listdir fs p) : a ∈ listdir (mkdirpP fs r) p := by
  unfold listdir at h ⊢
  unfold mkdirpP
  cases hl : fs.lookup (pathComponents p) with
  | none => rw [hl] at h; exact absurd h (List.not_mem_nil _)
  | some m =>
    rw [hl] at h
    cases m with
    | file l => exact absurd h (List.not_mem_nil _)
    | dir cs0 =>
      obtain ⟨cs2, hl2, hsub⟩ := lookup_mkdirp_dir_names (pathComponents r) fs (pathComponents p) cs0 hl
      rw [hl2]
      exact hsub a h

theorem readLines_mkdirpP_of_isfile (fs : FsNode) (r p : String)
    (hf : isfile fs p = true) : readLines (mkdirpP fs r) p = readLines fs p := by
  unfold isfile at hf
  split at hf
  · exact absurd hf (by simp)
  · cases hl : fs.lookup (pathComponents p) with
    | none => rw [hl] at hf; exact absurd hf (by simp)
    | some node =>
      rw [hl] at hf
      cases node with
      | dir cs => exact absurd hf (by simp)
      | file l =>
        unfold readLines mkdirpP
        rw [hl, (lookup_mkdirp_file_iff (pathComponents r) fs (pathComponents p) l).mpr hl]

/-! ## Claim C5: any unclassifiable root item fails validation and blocks
packaging -/

/-- Removal never creates directories either. -/
theorem lookup_removePath_dir_mono (q : List String) :
    ∀ (n : FsNode) (s : List String) (cs1 : List (String × FsNode)),
      (FsNode.removePath n q).lookup s = some (.dir cs1) →
      ∃ cs0, n.lookup s = some (.dir cs0) := by
  induction q with
  | nil => intro n s cs1 h; cases n <;> exact ⟨cs1, h⟩
  | cons c rest ih =>
    intro n s cs1 h
    cases n with
    | file fl => exact ⟨cs1, h⟩
    | dir cs =>
      cases rest with
      | nil =>
        cases s with
        | nil => exact ⟨cs, rfl⟩
        | cons a s' =>
          have h' : (match findEntry (removeEntry cs c) a with
              | some x => x.lookup s'
              | none => none) = some (FsNode.dir cs1) := h
          rw [findEntry_removeEntry] at h'
          by_cases hac : a = c
          · rw [if_pos hac] at h'
            exact absurd h' (by simp)
          · rw [if_neg hac] at h'
            exact ⟨cs1, h'⟩
      | cons c' rest' =>
        cases hfe : findEntry cs c with
        | none =>
          have hrw : FsNode.removePath (.dir cs) (c :: c' :: rest') = .dir cs := by
            rw [show FsNode.removePath (.dir cs) (c :: c' :: rest')
              = (match findEntry cs c with
                 | some child => FsNode.dir (replaceEntry cs c (child.removePath (c' :: rest')))
                 | none => FsNode.dir cs) from rfl, hfe]
          rw [hrw] at h
          exact ⟨cs1, h⟩
        | some child =>
          have hrw : FsNode.removePath (.dir cs) (c :: c' :: rest') =
              .dir (replaceEntry cs c (child.removePath (c' :: rest'))) := by
            rw [show FsNode.removePath (.dir cs) (c :: c' :: rest')
              = (match findEntry cs c with
                 | some child => FsNode.dir (replaceEntry cs c (child.removePath (c' :: rest')))
                 | none => FsNode.dir cs) from rfl, hfe]
          rw [hrw] at h
          cases s with
          | nil => exact ⟨cs, rfl⟩
          | cons a s' =>
            have h' : (match findEntry (replaceEntry cs c (child.removePath (c' :: rest'))) a with
                | some x => x.lookup s'
                | none => none) = some (FsNode.dir cs1) := h
            rw [findEntry_replaceEntry, hfe] at h'
            by_cases hac : a = c
            · rw [if_pos hac] at h'
              obtain ⟨cs0, h2⟩ := ih child s' cs1 (by simpa using h')
              refine ⟨cs0, ?_⟩
              show (match findEntry cs a with
                | some x => x.lookup s'
                | none => none) = some (FsNode.dir cs0)
              rw [hac, hfe]
              exact h2
            · rw [if_neg hac] at h'
              exact ⟨cs1, h'⟩

theorem isdir_removeP_mono (fs : FsNode) (p q : String)
    (h : isdir (removeP fs p) q = true) : isdir fs q = true := by
  unfold isdir at h ⊢
  cases hl : (removeP fs p).lookup (pathComponents q) with
  | none => rw [hl] at h; exact absurd h (by simp)
  | some node =>
    rw [hl] at h
    cases node with
    | file l => exact absurd h (by simp)
    | dir cs1 =>
      obtain ⟨cs0, h2⟩ := lookup_removePath_dir_mono (pathComponents p) fs (pathComponents q) cs1 hl
      rw [h2]

/-- An entry listed in a directory resolves to some node under the joined
path. -/
theorem lookup_join_of_mem_listdir (fs : FsNode) (adp b : String)
    (hb : pyStartsWith b "/" = false) (hcb : pathComponents b = [b])
    (hmem : b ∈ listdir fs adp) :
    ∃ x, fs.lookup (pathComponents (osPathJoin adp b)) = some x := by
  unfold listdir at hmem
  cases hl : fs.lookup (pathComponents adp) with
  | none => rw [hl] at hmem; exact absurd hmem (List.not_mem_nil _)
  | some m =>
    rw [hl] at hmem
    cases m with
    | file l => exact absurd hmem (List.not_mem_nil _)
    | dir cs =>
      obtain ⟨x, hx⟩ := findEntry_of_mem_names cs b hmem
      refine ⟨x, ?_⟩
      rw [pathComponents_append adp b hb, hcb, lookup_append (pathComponents adp) fs [b], hl]
      show FsNode.lookup (.dir cs) [b] = some x
      rw [show FsNode.lookup (.dir cs) [b]
        = (match findEntry cs b with
           | some child => child.lookup ([] : List String)
           | none => none) from rfl, hx]
      cases x <;> rfl

/-- Once an item that fits no accepting branch is among the remaining root
items, the classification loop can never succeed. -/
theorem checkRootItems_bad_item_never_ok (adp props lic doc : String) (dr lr : Option String)
    (item : String)
    (hl : osPathJoin adp item ≠ lic) (hd : osPathJoin adp item ≠ doc)
    (hp : osPathJoin adp item ≠ props)
    (hig : item ∉ ignore_items)
    (hver : item ≠ "VERSION") :
    ∀ (items : List String) (fs fs' : FsNode), item ∈ items →
      (item ∈ acceptable_dirs → isdir fs (osPathJoin adp item) = false) →
      checkRootItems adp props lic doc dr lr fs items ≠ .ok fs' := by
  intro items
  induction items with
  | nil => intro fs fs' hmem _; exact absurd hmem (List.not_mem_nil _)
  | cons it rest ih =>
    intro fs fs' hmem hacc hok
    by_cases hit : it = item
    · subst hit
      unfold checkRootItems at hok
      have hacc2 : ¬(it ∈ acceptable_dirs ∧ isdir fs (osPathJoin adp it) = true) := fun hc =>
        Bool.noConfusion ((hacc hc.1).symm.trans hc.2)
      rw [if_neg hl, if_neg hd, if_neg hp, if_neg hig, if_neg hacc2, if_neg hver] at hok
      repeat' split at hok
      all_goals exact Except.noConfusion hok
    · have hmem' : item ∈ rest := by
        rcases List.mem_cons.mp hmem with h1 | h1
        · exact absurd h1.symm hit
        · exact h1
      unfold checkRootItems at hok
      repeat' split at hok
      all_goals
        first
          | exact Except.noConfusion hok
          | exact ih fs fs' hmem' hacc hok
          | exact ih _ fs' hmem'
              (fun hin => by
                cases hb : isdir (removeP fs (osPathJoin adp it)) (osPathJoin adp item) with
                | false => rfl
                | true =>
                  have h3 := isdir_removeP_mono fs (osPathJoin adp it) (osPathJoin adp item) hb
                  rw [hacc hin] at h3
                  exact Bool.noConfusion h3) hok

/-- A validation error always aborts `make_asset_zip_core` with an error. -/
theorem make_asset_zip_core_error_of_validate_error (fs : FsNode) (adp dest : String)
    (h : ∃ e, validate_asset_structure fs adp = .error e) :
    ∃ e, make_asset_zip_core fs adp dest = .error e := by
  obtain ⟨e, he⟩ := h
  unfold make_asset_zip_core
  by_cases hdest : isdir fs dest = false
  · rw [if_pos hdest]
    exact ⟨_, rfl⟩
  · rw [if_neg hdest, he]
    cases e with
    | structural msg => exact ⟨_, rfl⟩
    | zipCreation msg => exact ⟨_, rfl⟩
    | osError msg => exact ⟨_, rfl⟩

/-- **C5**: for every asset directory whose root contains an item that is
not in the ignore list, not the resolved doc/license path, not an acceptable
subdirectory as a directory, not named `VERSION` and not the manifest file,
validation fails (with the structural "illegal item"/collision error on the
branch that reaches the item) and packaging, with any destination, produces
an error and creates no zip. -/
theorem illegal_root_item_rejected (fs : FsNode) (adp item : String)
    (hmem : item ∈ listdir fs adp)
    (hl : osPathJoin adp item ≠ resolvedLicensePath fs adp)
    (hd : osPathJoin adp item ≠ resolvedDocPath fs adp)
    (hp : osPathJoin adp item ≠ manifestPath adp)
    (hig : item ∉ ignore_items)
    (hver : item ≠ "VERSION")
    (hacc : item ∈ acceptable_dirs → isdir fs (osPathJoin adp item) = false) :
    (∃ e, validate_asset_structure fs adp = .error e) ∧
    (∀ (dst : Option String) (home : String),
      ∃ e, make_asset_zip fs adp dst home = .error e) := by
  have hval : ∃ e, validate_asset_structure fs adp = .error e := by
    cases hv : validate_asset_structure fs adp with
    | error e => exact ⟨e, rfl⟩
    | ok v =>
      exfalso
      obtain ⟨fs', name⟩ := v
      obtain ⟨_, _, _, _, _, _, hloop⟩ := (validate_ok_iff fs fs' adp name).mp hv
      exact checkRootItems_bad_item_never_ok adp (manifestPath adp)
        (resolvedLicensePath fs adp) (resolvedDocPath fs adp)
        (manifestProps fs adp).doc_file_rel_path (manifestProps fs adp).license_file_rel_path
        item hl hd hp hig hver (listdir fs adp) fs fs' hmem hacc hloop
  have hval2 : ∀ r : String, ∃ e, validate_asset_structure (mkdirpP fs r) adp = .error e := by
    intro r
    by_cases hprops : isfile fs (manifestPath adp) = true
    · have hreq : manifestProps (mkdirpP fs r) adp = manifestProps fs adp := by
        unfold manifestProps
        rw [readLines_mkdirpP_of_isfile fs r (manifestPath adp) hprops]
      have hresl : resolvedLicensePath (mkdirpP fs r) adp = resolvedLicensePath fs adp := by
        unfold resolvedLicensePath
        rw [hreq]
      have hresd : resolvedDocPath (mkdirpP fs r) adp = resolvedDocPath fs adp := by
        unfold resolvedDocPath
        rw [hreq]
      cases hv : validate_asset_structure (mkdirpP fs r) adp with
      | error e => exact ⟨e, rfl⟩
      | ok v =>
        exfalso
        obtain ⟨fs', name⟩ := v
        obtain ⟨_, _, _, _, _, _, hloop⟩ := (validate_ok_iff (mkdirpP fs r) fs' adp name).mp hv
        rw [hreq, hresl, hresd] at hloop
        refine checkRootItems_bad_item_never_ok adp (manifestPath adp)
          (resolvedLicensePath fs adp) (resolvedDocPath fs adp)
          (manifestProps fs adp).doc_file_rel_path (manifestProps fs adp).license_file_rel_path
          item hl hd hp hig hver (listdir (mkdirpP fs r) adp) (mkdirpP fs r) fs'
          (mem_listdir_mkdirpP fs r adp item hmem) ?_ hloop
        intro hin
        have hitem_facts : pyStartsWith item "/" = false ∧ pathComponents item = [item] := by
          have h3 : item = "scripts" ∨ item = "media" ∨ item = "config" := by
            simpa [acceptable_dirs] using hin
          rcases h3 with rfl | rfl | rfl <;> exact ⟨by decide, by decide⟩
        obtain ⟨x, hx⟩ := lookup_join_of_mem_listdir fs adp item hitem_facts.1 hitem_facts.2 hmem
        cases x with
        | dir cs =>
          exfalso
          have h4 : isdir fs (osPathJoin adp item) = true := by
            unfold isdir
            rw [hx]
          rw [hacc hin] at h4
          exact Bool.noConfusion h4
        | file l =>
          have h2 : (mkdirpP fs r).lookup (pathComponents (osPathJoin adp item)) =
              some (.file l) :=
            (lookup_mkdirp_file_iff (pathComponents r) fs
              (pathComponents (osPathJoin adp item)) l).mpr hx
          unfold isdir
          rw [h2]
    · have hprops2 : isfile (mkdirpP fs r) (manifestPath adp) = false := by
        rw [isfile_mkdirpP_eq]
        cases hb : isfile fs (manifestPath adp) with
        | false => rfl
        | true => exact absurd hb hprops
      refine ⟨.structural ("Asset properties file not found: " ++ manifestPath adp), ?_⟩
      unfold validate_asset_structure
      rw [show osPathJoin adp "asset.properties" = manifestPath adp from rfl, if_pos hprops2]
  refine ⟨hval, ?_⟩
  intro dst home
  by_cases hroot : isdir fs adp = false
  · refine ⟨.zipCreation ("Provided asset_dir_path is not a directory: " ++ adp), ?_⟩
    unfold make_asset_zip
    rw [if_pos hroot]
  · cases dst with
    | some d =>
      obtain ⟨e, he⟩ := make_asset_zip_core_error_of_validate_error fs adp d hval
      refine ⟨e, ?_⟩
      unfold make_asset_zip
      rw [if_neg hroot]
      exact he
    | none =>
      obtain ⟨e, he⟩ := make_asset_zip_core_error_of_validate_error
        (mkdirpP fs (osPathJoin home "Downloads")) adp (osPathJoin home "Downloads")
        (hval2 (osPathJoin home "Downloads"))
      refine ⟨e, ?_⟩
      unfold make_asset_zip
      rw [if_neg hroot]
      exact he

/-- Witness for C5: a root file `evil.txt` beside a valid manifest makes
validation and packaging fail. -/
theorem illegal_root_item_rejected_witness :
    (∃ e, validate_asset_structure
      (FsNode.dir [("a", FsNode.dir [
        ("asset.properties", FsNode.file ["name=X", "assetType=scenario"]),
        ("evil.txt", FsNode.file ["boom"])])]) "/a" = .error e) ∧
    (∀ (dst : Option String) (home : String),
      ∃ e, make_asset_zip
        (FsNode.dir [("a", FsNode.dir [
          ("asset.properties", FsNode.file ["name=X", "assetType=scenario"]),
          ("evil.txt", FsNode.file ["boom"])])]) "/a" dst home = .error e) :=
  illegal_root_item_rejected
    (FsNode.dir [("a", FsNode.dir [
      ("asset.properties", FsNode.file ["name=X", "assetType=scenario"]),
      ("evil.txt", FsNode.file ["boom"])])]) "/a" "evil.txt"
    (by decide) (by decide) (by decide) (by decide) (by decide) (by decide)
    (by intro h; exact absurd h (by decide))

/-! ## Claim C8: repeated packaging -/

/-- **C8 (counterexample)**: packaging with the asset root itself as the
destination succeeds the first time but leaves the zip inside the asset
directory, so the second call fails validation ("illegal item at the asset
root") instead of succeeding: the claim as stated is false. -/
theorem make_asset_zip_twice_not_always_ok : ¬ makeZipIdempotentClaim := by
  intro h
  obtain ⟨fs2, hh⟩ := h fsC8 fsC8' "/a" "/a/asset-X.zip" ["asset.properties"] "/a" "/home" rfl
  have hbad : make_asset_zip fsC8' "/a" (some "/a") "/home" =
      .error (.zipCreation ("Cons3rtAssetStructureError: Problem found in the asset structure: "
        ++ "Found illegal item at the asset root dir: asset-X.zip")) := rfl
  rw [hbad] at hh
  exact Except.noConfusion hh

/-! ## List facts used to relate the zip path with the asset subtree -/

theorem isPrefixOf_nil_left (l : List Char) : List.isPrefixOf ([] : List Char) l = true := by
  cases l <;> rfl

theorem isPrefixOf_single_cons (c d : Char) (l : List Char) :
    List.isPrefixOf [c] (d :: l) = (c == d) := by
  rw [show List.isPrefixOf [c] (d :: l) = ((c == d) && List.isPrefixOf ([] : List Char) l)
    from rfl, isPrefixOf_nil_left, Bool.and_true]

theorem isPrefixOf_true_of_append (a : List String) :
    ∀ (t b : List String), a ++ t = b → a.isPrefixOf b = true := by
  induction a with
  | nil => intro t b _; cases b <;> rfl
  | cons x a' ih =>
    intro t b h
    cases b with
    | nil => exact absurd h (by simp)
    | cons y b' =>
      rw [List.cons_append] at h
      have hxy : x = y := (List.cons.inj h).1
      have h2 : a' ++ t = b' := (List.cons.inj h).2
      rw [show List.isPrefixOf (x :: a') (y :: b') = ((x == y) && List.isPrefixOf a' b')
        from rfl, ih t b' h2, hxy]
      simp

theorem isPrefixOf_false_forall (a b : List String)
    (h : a.isPrefixOf b = false) : ∀ t, a ++ t ≠ b := by
  intro t ht
  rw [isPrefixOf_true_of_append a t b ht] at h
  exact Bool.noConfusion h

/-- Two lists extending to the same list are comparable. -/
theorem append_eq_append_cases (A : List String) :
    ∀ (P t x : List String), P ++ t = A ++ x →
      (∃ u, A ++ u = P) ∨ (∃ v, P ++ v = A) := by
  induction A with
  | nil => intro P t x h; exact Or.inl ⟨P, rfl⟩
  | cons a A' ih =>
    intro P t x h
    cases P with
    | nil => exact Or.inr ⟨a :: A', rfl⟩
    | cons q P' =>
      rw [List.cons_append, List.cons_append] at h
      have hqa : q = a := (List.cons.inj h).1
      have h2 : P' ++ t = A' ++ x := (List.cons.inj h).2
      rcases ih P' t x h2 with ⟨u, hu⟩ | ⟨v, hv⟩
      · exact Or.inl ⟨u, by rw [List.cons_append, hu, hqa]⟩
      · exact Or.inr ⟨v, by rw [List.cons_append, hv, hqa]⟩

/-- Every path in the subtree under `A` is incomparable with a path `P` that
is incomparable with `A` itself. -/
theorem subtree_not_comparable (A P : List String)
    (h1 : ∀ t, A ++ t ≠ P) (h2 : ∀ t, P ++ t ≠ A) (x : List String) :
    (∀ t, (A ++ x) ++ t ≠ P) ∧ (∀ t, P ++ t ≠ A ++ x) := by
  constructor
  · intro t ht
    exact h1 (x ++ t) (by rw [← List.append_assoc]; exact ht)
  · intro t ht
    rcases append_eq_append_cases A P t x ht with ⟨u, hu⟩ | ⟨v, hv⟩
    · exact h1 u hu
    · exact h2 v hv

/-! ## The computed zip path: not absolute, no trailing slash, nonempty -/

theorem assetZip_not_absolute (s : String) :
    pyStartsWith ("asset-" ++ s ++ ".zip") "/" = false := by
  unfold pyStartsWith
  rw [string_data_append, string_data_append,
    show ("asset-" : String).data = 'a' :: "sset-".data from rfl,
    show ("/" : String).data = ['/'] from rfl,
    List.cons_append, List.cons_append, isPrefixOf_single_cons]
  decide

theorem assetZip_getLast (s : String) :
    ("asset-" ++ s ++ ".zip").data.getLast? = some 'p' := by
  rw [string_data_append, show (".zip" : String).data = ['.', 'z', 'i', 'p'] from rfl,
    show ['.', 'z', 'i', 'p'] = ['.', 'z', 'i'] ++ ['p'] from rfl, ← List.append_assoc]
  exact List.getLast?_concat _

theorem getLast_append_of_some (l₁ l₂ : List Char) (c : Char) (h : l₂.getLast? = some c) :
    (l₁ ++ l₂).getLast? = some c := by
  cases l₂ with
  | nil => exact Option.noConfusion h
  | cons x xs =>
    rw [List.getLast?_append_cons]
    exact h

theorem osPathJoin_getLast (d y : String) (hy : pyStartsWith y "/" = false) (c : Char)
    (h : y.data.getLast? = some c) : (osPathJoin d y).data.getLast? = some c := by
  unfold osPathJoin
  rw [hy]
  simp only [Bool.false_eq_true, if_false]
  by_cases hd : d = ""
  · rw [if_pos hd]; exact h
  · rw [if_neg hd]
    by_cases hde : pyEndsWith d "/" = true
    · rw [if_pos hde, string_data_append]
      exact getLast_append_of_some _ _ c h
    · rw [if_neg hde, string_data_append, string_data_append]
      rw [List.append_assoc]
      exact getLast_append_of_some _ _ c (getLast_append_of_some _ _ c h)

theorem pyEndsWith_slash_of_getLast (s : String) (c : Char) (hc : (c == '/') = false)
    (h : s.data.getLast? = some c) : pyEndsWith s "/" = false := by
  cases hb : pyEndsWith s "/" with
  | false => rfl
  | true =>
    exfalso
    have hb2 : List.isSuffixOf (("/" : String).data) s.data = true := hb
    obtain ⟨t, ht⟩ := List.isSuffixOf_iff_suffix.mp hb2
    rw [← ht, show ("/" : String).data = ['/'] from rfl, List.getLast?_concat] at h
    injection h with h4
    subst h4
    exact absurd hc (by simp)

theorem assetZip_comps_ne_nil (s : String) :
    pathComponents ("asset-" ++ s ++ ".zip") ≠ [] := by
  unfold pathComponents
  rw [string_data_append, string_data_append,
    show ("asset-" : String).data = 'a' :: "sset-".data from rfl,
    List.cons_append, List.cons_append, splitSlash_cons,
    if_neg (by decide : ¬ ('a' = '/'))]
  cases hs : splitSlash (("sset-".data ++ s.data) ++ (".zip" : String).data) with
  | nil => exact absurd hs (splitSlash_ne_nil _)
  | cons g gs =>
    intro hcon
    rw [List.filter_cons, if_pos (by simp : (decide (('a' :: g) ≠ ([] : List Char)) = true))]
      at hcon
    simp at hcon

/-! ## Deleting a freshly created file restores the tree exactly -/

theorem replaceEntry_self (cs : List (String × FsNode)) (c : String) (x : FsNode)
    (h : findEntry cs c = some x) : replaceEntry cs c x = cs := by
  induction cs with
  | nil => rfl
  | cons e rest ih =>
    rw [show findEntry (e :: rest) c
      = (if e.1 = c then some e.2 else findEntry rest c) from rfl] at h
    rw [show replaceEntry (e :: rest) c x
      = (if e.1 = c then (c, x) :: rest else e :: replaceEntry rest c x) from rfl]
    by_cases hec : e.1 = c
    · rw [if_pos hec] at h
      rw [if_pos hec]
      injection h with h2
      rw [← h2, ← hec]
    · rw [if_neg hec] at h
      rw [if_neg hec, ih h]

theorem removeEntry_append_fresh (cs : List (String × FsNode)) (c : String) (x : FsNode)
    (h : findEntry cs c = none) : removeEntry (cs ++ [(c, x)]) c = cs := by
  induction cs with
  | nil =>
    show List.filter _ [(c, x)] = []
    rw [List.filter_cons]
    simp
  | cons e rest ih =>
    rw [show findEntry (e :: rest) c
      = (if e.1 = c then some e.2 else findEntry rest c) from rfl] at h
    by_cases hec : e.1 = c
    · rw [if_pos hec] at h; exact Option.noConfusion h
    · rw [if_neg hec] at h
      have h1 : removeEntry ((e :: rest) ++ [(c, x)]) c
          = e :: removeEntry (rest ++ [(c, x)]) c := by
        simp [removeEntry, List.filter_cons, hec]
      rw [h1, ih h]

theorem replaceEntry_replaceEntry (cs : List (String × FsNode)) (c : String) (x y : FsNode) :
    replaceEntry (replaceEntry cs c x) c y = replaceEntry cs c y := by
  induction cs with
  | nil => rfl
  | cons e rest ih =>
    by_cases hec : e.1 = c
    · rw [show replaceEntry (e :: rest) c x
        = (if e.1 = c then (c, x) :: rest else e :: replaceEntry rest c x) from rfl, if_pos hec]
      rw [show replaceEntry ((c, x) :: rest) c y
        = (if ((c, x) : String × FsNode).1 = c then (c, y) :: rest
           else (c, x) :: replaceEntry rest c y) from rfl, if_pos rfl]
      rw [show replaceEntry (e :: rest) c y
        = (if e.1 = c then (c, y) :: rest else e :: replaceEntry rest c y) from rfl, if_pos hec]
    · rw [show replaceEntry (e :: rest) c x
        = (if e.1 = c then (c, x) :: rest else e :: replaceEntry rest c x) from rfl, if_neg hec]
      rw [show replaceEntry (e :: replaceEntry rest c x) c y
        = (if e.1 = c then (c, y) :: replaceEntry rest c x
           else e :: replaceEntry (replaceEntry rest c x) c y) from rfl, if_neg hec]
      rw [show replaceEntry (e :: rest) c y
        = (if e.1 = c then (c, y) :: rest else e :: replaceEntry rest c y) from rfl, if_neg hec]
      rw [ih]

/-- `os.remove` of a file just created by `open(path, 'w')` restores the
previous tree exactly. -/
theorem removePath_createFileAt (q : List String) :
    ∀ (n n' : FsNode) (content : List String),
      n.createFileAt q content = some n' → n'.removePath q = n := by
  induction q with
  | nil => intro n n' content h; cases n <;> exact Option.noConfusion h
  | cons c q' ih =>
    intro n n' content h
    cases n with
    | file l => exact Option.noConfusion h
    | dir cs =>
      cases q' with
      | nil =>
        rw [show FsNode.createFileAt (.dir cs) [c] content
          = (match findEntry cs c with
             | some _ => none
             | none => some (.dir (cs ++ [(c, .file content)]))) from rfl] at h
        cases hfe : findEntry cs c with
        | some y => rw [hfe] at h; exact Option.noConfusion h
        | none =>
          rw [hfe] at h
          dsimp only at h
          injection h with h2
          rw [← h2]
          show FsNode.dir (removeEntry (cs ++ [(c, .file content)]) c) = .dir cs
          rw [removeEntry_append_fresh cs c _ hfe]
      | cons c' q'' =>
        rw [show FsNode.createFileAt (.dir cs) (c :: c' :: q'') content
          = (match findEntry cs c with
             | some child =>
               match child.createFileAt (c' :: q'') content with
               | some child' => some (.dir (replaceEntry cs c child'))
               | none => none
             | none => none) from rfl] at h
        cases hfe : findEntry cs c with
        | none => rw [hfe] at h; exact Option.noConfusion h
        | some child =>
          rw [hfe] at h
          dsimp only at h
          cases hcc : child.createFileAt (c' :: q'') content with
          | none => rw [hcc] at h; exact Option.noConfusion h
          | some child' =>
            rw [hcc] at h
            dsimp only at h
            injection h with h2
            rw [← h2]
            show FsNode.removePath (.dir (replaceEntry cs c child')) (c :: c' :: q'') = .dir cs
            rw [show FsNode.removePath (.dir (replaceEntry cs c child')) (c :: c' :: q'')
              = (match findEntry (replaceEntry cs c child') c with
                 | some chx => FsNode.dir (replaceEntry (replaceEntry cs c child') c
                     (chx.removePath (c' :: q'')))
                 | none => .dir (replaceEntry cs c child')) from rfl]
            rw [findEntry_replaceEntry, if_pos rfl, hfe]
            dsimp only [Option.map]
            rw [ih child child' content hcc, replaceEntry_replaceEntry,
              replaceEntry_self cs c child hfe]

/-- The file just created by `createFileAt` is found at the created path. -/
theorem lookup_createFileAt_self (q : List String) :
    ∀ (n n' : FsNode) (content : List String),
      n.createFileAt q content = some n' → n'.lookup q = some (.file content) := by
  induction q with
  | nil => intro n n' content h; cases n <;> exact Option.noConfusion h
  | cons c q' ih =>
    intro n n' content h
    cases n with
    | file l => exact Option.noConfusion h
    | dir cs =>
      cases q' with
      | nil =>
        rw [show FsNode.createFileAt (.dir cs) [c] content
          = (match findEntry cs c with
             | some _ => none
             | none => some (.dir (cs ++ [(c, .file content)]))) from rfl] at h
        cases hfe : findEntry cs c with
        | some y => rw [hfe] at h; exact Option.noConfusion h
        | none =>
          rw [hfe] at h
          dsimp only at h
          injection h with h2
          rw [← h2]
          show (match findEntry (cs ++ [(c, FsNode.file content)]) c with
            | some child => child.lookup ([] : List String)
            | none => none) = some (.file content)
          rw [findEntry_append, hfe]
          dsimp only
          rw [show findEntry [(c, FsNode.file content)] c
            = (if c = c then some (FsNode.file content) else none) from rfl, if_pos rfl]
          rfl
      | cons c' q'' =>
        rw [show FsNode.createFileAt (.dir cs) (c :: c' :: q'') content
          = (match findEntry cs c with
             | some child =>
               match child.createFileAt (c' :: q'') content with
               | some child' => some (.dir (replaceEntry cs c child'))
               | none => none
             | none => none) from rfl] at h
        cases hfe : findEntry cs c with
        | none => rw [hfe] at h; exact Option.noConfusion h
        | some child =>
          rw [hfe] at h
          dsimp only at h
          cases hcc : child.createFileAt (c' :: q'') content with
          | none => rw [hcc] at h; exact Option.noConfusion h
          | some child' =>
            rw [hcc] at h
            dsimp only at h
            injection h with h2
            rw [← h2]
            show (match findEntry (replaceEntry cs c child') c with
              | some chx => chx.lookup (c' :: q'')
              | none => none) = some (.file content)
            rw [findEntry_replaceEntry, if_pos rfl, hfe]
            dsimp only [Option.map]
            exact ih child child' content hcc

/-! ## Frame lemmas: removal and creation do not disturb incomparable paths -/

theorem lookup_removePath_frame (q : List String) :
    ∀ (n : FsNode) (r : List String),
      (∀ t, q ++ t ≠ r) → (∀ t, r ++ t ≠ q) →
      (FsNode.removePath n q).lookup r = n.lookup r := by
  induction q with
  | nil => intro n r hqr hrq; exact absurd (List.nil_append r) (hqr r)
  | cons c q' ih =>
    intro n r hqr hrq
    cases n with
    | file l => rfl
    | dir cs =>
      cases r with
      | nil => exact absurd (List.nil_append (c :: q')) (hrq (c :: q'))
      | cons a r' =>
        cases q' with
        | nil =>
          have hac : a ≠ c := by
            intro hh
            exact hqr r' (show [c] ++ r' = a :: r' from by rw [hh, List.singleton_append])
          rw [show FsNode.removePath (.dir cs) [c] = .dir (removeEntry cs c) from rfl]
          rw [show FsNode.lookup (.dir (removeEntry cs c)) (a :: r')
            = (match findEntry (removeEntry cs c) a with
               | some child => child.lookup r'
               | none => none) from rfl]
          rw [show FsNode.lookup (.dir cs) (a :: r')
            = (match findEntry cs a with
               | some child => child.lookup r'
               | none => none) from rfl]
          rw [findEntry_removeEntry, if_neg hac]
        | cons c' q'' =>
          by_cases hac : a = c
          · subst hac
            have hqr' : ∀ t, (c' :: q'') ++ t ≠ r' := by
              intro t ht
              exact hqr t (by rw [List.cons_append, ht])
            have hrq' : ∀ t, r' ++ t ≠ (c' :: q'') := by
              intro t ht
              exact hrq t (by rw [List.cons_append, ht])
            rw [show FsNode.removePath (.dir cs) (a :: c' :: q'')
              = (match findEntry cs a with
                 | some child => FsNode.dir (replaceEntry cs a (child.removePath (c' :: q'')))
                 | none => .dir cs) from rfl]
            cases hfe : findEntry cs a with
            | none => rfl
            | some child =>
              dsimp only
              rw [show FsNode.lookup
                  (.dir (replaceEntry cs a (child.removePath (c' :: q'')))) (a :: r')
                = (match findEntry (replaceEntry cs a (child.removePath (c' :: q''))) a with
                   | some ch => ch.lookup r'
                   | none => none) from rfl]
              rw [findEntry_replaceEntry, if_pos rfl, hfe]
              dsimp only [Option.map]
              rw [show FsNode.lookup (.dir cs) (a :: r')
                = (match findEntry cs a with
                   | some ch => ch.lookup r'
                   | none => none) from rfl, hfe]
              exact ih child r' hqr' hrq'
          · rw [show FsNode.removePath (.dir cs) (c :: c' :: q'')
              = (match findEntry cs c with
                 | some child => FsNode.dir (replaceEntry cs c (child.removePath (c' :: q'')))
                 | none => .dir cs) from rfl]
            cases hfe : findEntry cs c with
            | none => rfl
            | some child =>
              dsimp only
              rw [show FsNode.lookup
                  (.dir (replaceEntry cs c (child.removePath (c' :: q'')))) (a :: r')
                = (match findEntry (replaceEntry cs c (child.removePath (c' :: q''))) a with
                   | some ch => ch.lookup r'
                   | none => none) from rfl]
              rw [findEntry_replaceEntry, if_neg hac]
              rw [show FsNode.lookup (.dir cs) (a :: r')
                = (match findEntry cs a with
                   | some ch => ch.lookup r'
                   | none => none) from rfl]

theorem lookup_createFileAt_frame (q : List String) :
    ∀ (n n' : FsNode) (content : List String) (r : List String),
      n.createFileAt q content = some n' →
      (∀ t, q ++ t ≠ r) → (∀ t, r ++ t ≠ q) →
      n'.lookup r = n.lookup r := by
  induction q with
  | nil => intro n n' content r h hqr hrq; exact absurd (List.nil_append r) (hqr r)
  | cons c q' ih =>
    intro n n' content r h hqr hrq
    cases n with
    | file l => exact Option.noConfusion h
    | dir cs =>
      cases r with
      | nil => exact absurd (List.nil_append (c :: q')) (hrq (c :: q'))
      | cons a r' =>
        cases q' with
        | nil =>
          have hac : a ≠ c := by
            intro hh
            exact hqr r' (show [c] ++ r' = a :: r' from by rw [hh, List.singleton_append])
          rw [show FsNode.createFileAt (.dir cs) [c] content
            = (match findEntry cs c with
               | some _ => none
               | none => some (.dir (cs ++ [(c, .file content)]))) from rfl] at h
          cases hfe : findEntry cs c with
          | some y => rw [hfe] at h; exact Option.noConfusion h
          | none =>
            rw [hfe] at h
            dsimp only at h
            injection h with h2
            rw [← h2]
            rw [show FsNode.lookup (.dir (cs ++ [(c, FsNode.file content)])) (a :: r')
              = (match findEntry (cs ++ [(c, FsNode.file content)]) a with
                 | some ch => ch.lookup r'
                 | none => none) from rfl]
            rw [findEntry_append,
              show findEntry [(c, FsNode.file content)] a
                = (if c = a then some (FsNode.file content) else none) from rfl,
              if_neg (fun hh : c = a => hac hh.symm)]
            rw [show FsNode.lookup (.dir cs) (a :: r')
              = (match findEntry cs a with
                 | some ch => ch.lookup r'
                 | none => none) from rfl]
            cases hfa : findEntry cs a with
            | none => rfl
            | some x => rfl
        | cons c' q'' =>
          rw [show FsNode.createFileAt (.dir cs) (c :: c' :: q'') content
            = (match findEntry cs c with
               | some child =>
                 match child.createFileAt (c' :: q'') content with
                 | some child' => some (.dir (replaceEntry cs c child'))
                 | none => none
               | none => none) from rfl] at h
          cases hfe : findEntry cs c with
          | none => rw [hfe] at h; exact Option.noConfusion h
          | some child =>
            rw [hfe] at h
            dsimp only at h
            cases hcc : child.createFileAt (c' :: q'') content with
            | none => rw [hcc] at h; exact Option.noConfusion h
            | some child' =>
              rw [hcc] at h
              dsimp only at h
              injection h with h2
              rw [← h2]
              rw [show FsNode.lookup (.dir (replaceEntry cs c child')) (a :: r')
                = (match findEntry (replaceEntry cs c child') a with
                   | some ch => ch.lookup r'
                   | none => none) from rfl]
              rw [show FsNode.lookup (.dir cs) (a :: r')
                = (match findEntry cs a with
                   | some ch => ch.lookup r'
                   | none => none) from rfl]
              by_cases hac : a = c
              · subst hac
                have hqr' : ∀ t, (c' :: q'') ++ t ≠ r' := by
                  intro t ht
                  exact hqr t (by rw [List.cons_append, ht])
                have hrq' : ∀ t, r' ++ t ≠ (c' :: q'') := by
                  intro t ht
                  exact hrq t (by rw [List.cons_append, ht])
                rw [findEntry_replaceEntry, if_pos rfl, hfe]
                dsimp only [Option.map]
                exact ih child child' content r' hcc hqr' hrq'
              · rw [findEntry_replaceEntry, if_neg hac]

/-! ## Transfer lemmas for validation across a filesystem change that leaves
the asset subtree untouched -/

theorem checkInstallScript_congr (fsA fsB : FsNode) (adp at_ : String) (rel : Option String)
    (h : isfile fsB (osPathJoin adp (rel.getD "")) = isfile fsA (osPathJoin adp (rel.getD ""))) :
    checkInstallScript fsB adp at_ rel = checkInstallScript fsA adp at_ rel := by
  unfold checkInstallScript
  by_cases h1 : at_ = "software"
  · rw [if_pos h1, if_pos h1]
    by_cases h2 : pyTruthy rel = false
    · rw [if_pos h2, if_pos h2]
    · rw [if_neg h2, if_neg h2]
      simp only [h]
  · rw [if_neg h1, if_neg h1]

/-- The root-item loop is insensitive to the filesystem as long as the item
list holds no `VERSION` entry and the acceptable-dir checks agree: a run that
succeeds on one filesystem succeeds on the other, returning it unchanged. -/
theorem checkRootItems_transfer (adp props lic doc : String) (dr lr : Option String)
    (fsA fsB : FsNode)
    (hagree : ∀ it, it ∈ acceptable_dirs →
      isdir fsB (osPathJoin adp it) = isdir fsA (osPathJoin adp it)) :
    ∀ (items : List String), "VERSION" ∉ items →
      (∃ fsA', checkRootItems adp props lic doc dr lr fsA items = .ok fsA') →
      checkRootItems adp props lic doc dr lr fsB items = .ok fsB := by
  intro items
  induction items with
  | nil => intro _ _; rfl
  | cons item rest ih =>
    rintro hv ⟨fsA', hok⟩
    have hvr : "VERSION" ∉ rest := fun hh => hv (List.mem_cons_of_mem _ hh)
    have hvi : item ≠ "VERSION" := fun hh => hv (by rw [← hh] at *; exact List.mem_cons_self _ _)
    unfold checkRootItems at hok ⊢
    by_cases h1 : osPathJoin adp item = lic
    · rw [if_pos h1] at hok ⊢
      exact ih hvr ⟨fsA', hok⟩
    · rw [if_neg h1] at hok ⊢
      by_cases h2 : osPathJoin adp item = doc
      · rw [if_pos h2] at hok ⊢
        exact ih hvr ⟨fsA', hok⟩
      · rw [if_neg h2] at hok ⊢
        by_cases h3 : osPathJoin adp item = props
        · rw [if_pos h3] at hok ⊢
          exact ih hvr ⟨fsA', hok⟩
        · rw [if_neg h3] at hok ⊢
          by_cases h4 : item ∈ ignore_items
          · rw [if_pos h4] at hok ⊢
            exact ih hvr ⟨fsA', hok⟩
          · rw [if_neg h4] at hok ⊢
            by_cases h5 : item ∈ acceptable_dirs ∧ isdir fsA (osPathJoin adp item) = true
            · rw [if_pos h5] at hok
              rw [if_pos (show item ∈ acceptable_dirs ∧
                  isdir fsB (osPathJoin adp item) = true from
                ⟨h5.1, (hagree item h5.1).trans h5.2⟩)]
              exact ih hvr ⟨fsA', hok⟩
            · rw [if_neg h5] at hok
              have h5b : ¬(item ∈ acceptable_dirs ∧ isdir fsB (osPathJoin adp item) = true) := by
                intro hc
                exact h5 ⟨hc.1, (hagree item hc.1).symm.trans hc.2⟩
              rw [if_neg h5b]
              rw [if_neg hvi] at hok ⊢
              by_cases h7 : item = "doc"
              · rw [if_pos h7] at hok
                exact Except.noConfusion hok
              · rw [if_neg h7] at hok ⊢
                by_cases h8 : item ∈ potential_doc_files
                · rw [if_pos h8] at hok
                  split at hok <;> exact Except.noConfusion hok
                · rw [if_neg h8] at hok ⊢
                  by_cases h9 : item ∈ potential_license_files
                  · rw [if_pos h9] at hok
                    split at hok <;> exact Except.noConfusion hok
                  · rw [if_neg h9] at hok
                    exact Except.noConfusion hok

/-- **C8 (amended)**: if `make_asset_zip` succeeds with an explicit
destination whose computed zip path lies neither inside the asset directory
nor on the path to it, the asset root holds no `VERSION` entry, and the
manifest declares no absolute documentation/license/install-script path, then
a second call on the resulting filesystem succeeds, deletes the zip produced
by the first call, recreates it at the same path with exactly the same member
list, and returns the filesystem unchanged. -/
theorem make_asset_zip_repackage_stable (fs fs1 : FsNode) (adp d home p : String)
    (m : List String)
    (h1 : make_asset_zip fs adp (some d) home = .ok (fs1, p, m))
    (hout1 : List.isPrefixOf (pathComponents adp) (pathComponents p) = false)
    (hout2 : List.isPrefixOf (pathComponents p) (pathComponents adp) = false)
    (hver : "VERSION" ∉ listdir fs adp)
    (hdocAbs : pyStartsWith ((manifestProps fs adp).doc_file_rel_path.getD "") "/" = false)
    (hlicAbs : pyStartsWith ((manifestProps fs adp).license_file_rel_path.getD "") "/" = false)
    (hinsAbs : pyStartsWith ((manifestProps fs adp).install_script_rel_path.getD "") "/" = false) :
    make_asset_zip fs1 adp (some d) home = .ok (fs1, p, m) ∧ isfile fs1 p = true := by
  unfold make_asset_zip at h1
  by_cases hroot : isdir fs adp = false
  · rw [if_pos hroot] at h1
    exact Except.noConfusion h1
  · rw [if_neg hroot] at h1
    dsimp only at h1
    have hroot' : isdir fs adp = true := by
      cases hh : isdir fs adp with
      | true => rfl
      | false => exact absurd hh hroot
    unfold make_asset_zip_core at h1
    by_cases hdest : isdir fs d = false
    · rw [if_pos hdest] at h1
      exact Except.noConfusion h1
    · rw [if_neg hdest] at h1
      cases hv : validate_asset_structure fs adp with
      | error e =>
        rw [hv] at h1
        cases e <;> (dsimp only at h1; exact Except.noConfusion h1)
      | ok v =>
        obtain ⟨fs2, asset_name⟩ := v
        rw [hv] at h1
        dsimp only at h1
        obtain ⟨hfile, hname1, hname2, hexT, hdoc2, hlic2, hloop⟩ :=
          (validate_ok_iff fs fs2 adp asset_name).mp hv
        obtain ⟨at_, htype1, htype2, hinst⟩ := hexT
        have htr : checkRootItems adp (manifestPath adp) (resolvedLicensePath fs adp)
            (resolvedDocPath fs adp) (manifestProps fs adp).doc_file_rel_path
            (manifestProps fs adp).license_file_rel_path fs (listdir fs adp) = .ok fs :=
          checkRootItems_transfer adp (manifestPath adp) (resolvedLicensePath fs adp)
            (resolvedDocPath fs adp) (manifestProps fs adp).doc_file_rel_path
            (manifestProps fs adp).license_file_rel_path fs fs (fun _ _ => rfl)
            (listdir fs adp) hver ⟨fs2, hloop⟩
        have hfs2 : fs = fs2 := by
          rw [htr] at hloop
          exact Except.ok.inj hloop
        subst hfs2
        unfold make_zip_write at h1
        cases hcr : (zipRemoveExisting fs
            (osPathJoin d ("asset-" ++ pyRemoveSpaces asset_name ++ ".zip"))).createFileAt
            (pathComponents (osPathJoin d ("asset-" ++ pyRemoveSpaces asset_name ++ ".zip")))
            (zipEntries (zipRemoveExisting fs
              (osPathJoin d ("asset-" ++ pyRemoveSpaces asset_name ++ ".zip"))) adp) with
        | none => rw [hcr] at h1; exact Except.noConfusion h1
        | some fs3 =>
          rw [hcr] at h1
          dsimp only at h1
          simp only [Except.ok.injEq, Prod.mk.injEq] at h1
          obtain ⟨h1a, h1b, h1c⟩ := h1
          have h1a' : fs1 = fs3 := h1a.symm
          subst h1a'
          subst h1b
          subst h1c
          -- Abbreviations: the zip path and the pre-creation filesystem.
          have hzpAbs : pyStartsWith ("asset-" ++ pyRemoveSpaces asset_name ++ ".zip") "/"
              = false := assetZip_not_absolute _
          have hcompzp : pathComponents (osPathJoin d ("asset-"
              ++ pyRemoveSpaces asset_name ++ ".zip"))
              = pathComponents d ++ pathComponents ("asset-"
                ++ pyRemoveSpaces asset_name ++ ".zip") :=
            pathComponents_append d _ hzpAbs
          have hend : pyEndsWith (osPathJoin d ("asset-"
              ++ pyRemoveSpaces asset_name ++ ".zip")) "/" = false :=
            pyEndsWith_slash_of_getLast _ 'p' (by decide)
              (osPathJoin_getLast d _ hzpAbs 'p' (assetZip_getLast _))
          -- Incomparability of the zip path with the asset subtree.
          have hnotAP : ∀ t, pathComponents adp ++ t
              ≠ pathComponents (osPathJoin d ("asset-"
                ++ pyRemoveSpaces asset_name ++ ".zip")) :=
            isPrefixOf_false_forall _ _ hout1
          have hnotPA : ∀ t, pathComponents (osPathJoin d ("asset-"
              ++ pyRemoveSpaces asset_name ++ ".zip")) ++ t ≠ pathComponents adp :=
            isPrefixOf_false_forall _ _ hout2
          -- The master frame: the asset subtree is untouched.
          have hframe : ∀ x, fs1.lookup (pathComponents adp ++ x)
              = fs.lookup (pathComponents adp ++ x) := by
            intro x
            obtain ⟨hx1, hx2⟩ := subtree_not_comparable (pathComponents adp)
              (pathComponents (osPathJoin d ("asset-"
                ++ pyRemoveSpaces asset_name ++ ".zip"))) hnotAP hnotPA x
            have hstep1 : fs1.lookup (pathComponents adp ++ x)
                = (zipRemoveExisting fs (osPathJoin d ("asset-"
                    ++ pyRemoveSpaces asset_name ++ ".zip"))).lookup
                  (pathComponents adp ++ x) :=
              lookup_createFileAt_frame _ _ fs1 _ _ hcr hx2 hx1
            have hstep2 : (zipRemoveExisting fs (osPathJoin d ("asset-"
                ++ pyRemoveSpaces asset_name ++ ".zip"))).lookup (pathComponents adp ++ x)
                = fs.lookup (pathComponents adp ++ x) := by
              unfold zipRemoveExisting
              by_cases hzf : isfile fs (osPathJoin d ("asset-"
                  ++ pyRemoveSpaces asset_name ++ ".zip")) = true
              · rw [if_pos hzf]
                exact lookup_removePath_frame _ fs _ hx2 hx1
              · rw [if_neg hzf]
            exact hstep1.trans hstep2
          -- Derived frame equalities at joined paths.
          have hisf : ∀ b : String, pyStartsWith b "/" = false →
              isfile fs1 (osPathJoin adp b) = isfile fs (osPathJoin adp b) := by
            intro b hb
            unfold isfile
            rw [pathComponents_append adp b hb, hframe (pathComponents b)]
          have hisd : ∀ b : String, pyStartsWith b "/" = false →
              isdir fs1 (osPathJoin adp b) = isdir fs (osPathJoin adp b) := by
            intro b hb
            unfold isdir
            rw [pathComponents_append adp b hb, hframe (pathComponents b)]
          have hframe0 : fs1.lookup (pathComponents adp) = fs.lookup (pathComponents adp) := by
            have hh := hframe []
            rw [List.append_nil] at hh
            exact hh
          have hisd_adp : isdir fs1 adp = isdir fs adp := by
            unfold isdir
            rw [hframe0]
          have hlist : listdir fs1 adp = listdir fs adp := by
            unfold listdir
            rw [hframe0]
          have hread0 : readLines fs1 (manifestPath adp) = readLines fs (manifestPath adp) := by
            unfold readLines manifestPath
            rw [pathComponents_append adp "asset.properties" (by decide),
              hframe (pathComponents "asset.properties")]
          have hprops1 : manifestProps fs1 adp = manifestProps fs adp := by
            unfold manifestProps
            rw [hread0]
          have hrlp : resolvedLicensePath fs1 adp = resolvedLicensePath fs adp := by
            unfold resolvedLicensePath
            rw [hprops1]
          have hrdp : resolvedDocPath fs1 adp = resolvedDocPath fs adp := by
            unfold resolvedDocPath
            rw [hprops1]
          -- The zip file exists in the new filesystem.
          have hfile1 : isfile fs1 (osPathJoin d ("asset-"
              ++ pyRemoveSpaces asset_name ++ ".zip")) = true := by
            unfold isfile
            rw [hend]
            simp only [Bool.false_eq_true, if_false]
            rw [lookup_createFileAt_self _ _ fs1 _ hcr]
          -- The destination is still a directory.
          have hdird : isdir fs1 d = true := by
            have hl := lookup_createFileAt_self _ _ fs1 _ hcr
            rw [hcompzp, lookup_append] at hl
            unfold isdir
            cases hld : fs1.lookup (pathComponents d) with
            | none => rw [hld] at hl; exact Option.noConfusion hl
            | some node =>
              rw [hld] at hl
              dsimp only [Option.bind] at hl
              cases node with
              | dir cs => rfl
              | file l =>
                exfalso
                cases hcz : pathComponents ("asset-"
                    ++ pyRemoveSpaces asset_name ++ ".zip") with
                | nil => exact assetZip_comps_ne_nil _ hcz
                | cons c cs' =>
                  rw [hcz] at hl
                  exact Option.noConfusion hl
          -- The asset still validates, returning the same name and the
          -- filesystem unchanged.
          have hagree : ∀ it, it ∈ acceptable_dirs →
              isdir fs1 (osPathJoin adp it) = isdir fs (osPathJoin adp it) := by
            intro it hit
            have h3 : it = "scripts" ∨ it = "media" ∨ it = "config" := by
              simpa [acceptable_dirs] using hit
            rcases h3 with rfl | rfl | rfl <;> exact hisd _ (by decide)
          have hval1 : validate_asset_structure fs1 adp = .ok (fs1, asset_name) := by
            refine (validate_ok_iff fs1 fs1 adp asset_name).mpr
              ⟨?_, ?_, hname2, ⟨at_, ?_, htype2, ?_⟩, ?_, ?_, ?_⟩
            · show isfile fs1 (manifestPath adp) = true
              rw [show manifestPath adp = osPathJoin adp "asset.properties" from rfl,
                hisf "asset.properties" (by decide)]
              exact hfile
            · rw [hprops1]; exact hname1
            · rw [hprops1]; exact htype1
            · rw [hprops1]
              rw [checkInstallScript_congr fs fs1 adp at_
                (manifestProps fs adp).install_script_rel_path (hisf _ hinsAbs)]
              exact hinst
            · rw [hprops1]
              intro hpt
              rw [hisf _ hdocAbs]
              exact hdoc2 hpt
            · rw [hprops1]
              intro hpt
              rw [hisf _ hlicAbs]
              exact hlic2 hpt
            · rw [hrlp, hrdp, hprops1, hlist]
              exact checkRootItems_transfer adp (manifestPath adp)
                (resolvedLicensePath fs adp) (resolvedDocPath fs adp)
                (manifestProps fs adp).doc_file_rel_path
                (manifestProps fs adp).license_file_rel_path fs fs1 hagree
                (listdir fs adp) hver ⟨fs, htr⟩
          -- Deleting the created zip restores the pre-creation filesystem.
          have hzre : zipRemoveExisting fs1 (osPathJoin d ("asset-"
              ++ pyRemoveSpaces asset_name ++ ".zip"))
              = zipRemoveExisting fs (osPathJoin d ("asset-"
                ++ pyRemoveSpaces asset_name ++ ".zip")) := by
            rw [show zipRemoveExisting fs1 (osPathJoin d ("asset-"
                ++ pyRemoveSpaces asset_name ++ ".zip"))
              = (if isfile fs1 (osPathJoin d ("asset-"
                  ++ pyRemoveSpaces asset_name ++ ".zip")) = true
                 then removeP fs1 (osPathJoin d ("asset-"
                   ++ pyRemoveSpaces asset_name ++ ".zip"))
                 else fs1) from rfl, if_pos hfile1]
            exact removePath_createFileAt _ _ fs1 _ hcr
          refine ⟨?_, hfile1⟩
          unfold make_asset_zip
          rw [if_neg (fun hh : isdir fs1 adp = false =>
            Bool.noConfusion ((hisd_adp.trans hroot').symm.trans hh))]
          dsimp only
          unfold make_asset_zip_core
          rw [if_neg (fun hh : isdir fs1 d = false =>
            Bool.noConfusion (hdird.symm.trans hh))]
          rw [hval1]
          dsimp only
          unfold make_zip_write
          rw [hzre, hcr]

/-- Witness for the amended C8: packaging `/a` into `/out` twice succeeds,
with identical zip path and member list, and the second call leaves the
filesystem as the first call left it. -/
theorem make_asset_zip_repackage_stable_witness :
    make_asset_zip fsC8w' "/a" (some "/out") "/home"
        = .ok (fsC8w', "/out/asset-X.zip", ["asset.properties"]) ∧
      isfile fsC8w' "/out/asset-X.zip" = true :=
  make_asset_zip_repackage_stable fsC8w fsC8w' "/a" "/out" "/home"
    "/out/asset-X.zip" ["asset.properties"] rfl (by decide) (by decide) (by decide)
    (by decide) (by decide) (by decide)

end PyBart

